import Mathlib

/-!
Shallow embedding of `src/gallium/drivers/etnaviv/etnaviv_compiler_nir.c`
(etnaviv NIR shader compiler backend) and proofs about it.

Modelling conventions, used uniformly below:

* C `assert(cond)` — active in the default (non-NDEBUG) build — is modelled as
  an explicit runtime check: the enclosing computation returns `none` /
  `Except.error` when the condition fails, and no further effects take place.
* The `compile_error` macro (etnaviv_compiler_nir.c:66) prints, sets the
  compile context's `error` flag and ends in `assert(0)`; it is modelled as
  aborting with a structured error value on which the error flag is recorded
  as set (`errorFlagSet`).
* C unsigned 32-bit arithmetic is modelled on `Nat` with explicit `% 2^32`
  where wraparound can matter (`usub32`, `umul32`).
* Numeric constants that come from headers which are not part of the sources
  (generated hardware ISA headers, mesa compiler headers) are modelled from the
  spec; only their distinctness (and the 0xff sentinel) matters to any claim,
  never their particular numeric value.  Each such definition carries a
  `Modelled from the spec:` doc comment.
* In-place mutation of the NIR graph / the compile context is modelled by
  explicit state passing; `nir_ssa_def_rewrite_uses_after` is modelled by an
  explicit substitution applied to the not-yet-processed suffix of the
  instruction list.
-/

/- ------------------------------------------------------------------ -/
/- Hardware constants.                                                 -/
/- ------------------------------------------------------------------ -/

/-- Modelled from the spec: hardware opcode encodings (`INST_OPCODE_*`) come
from a generated ISA header that is not among the sources.  The claims depend
only on the opcodes being pairwise distinct and different from the 0xff
sentinel used as the invalid-entry marker of `etna_ops`. -/
def INST_OPCODE_NOP : Nat := 0x00

def INST_OPCODE_ADD : Nat := 0x01
def INST_OPCODE_MAD : Nat := 0x02
def INST_OPCODE_MUL : Nat := 0x03
def INST_OPCODE_DP2 : Nat := 0x04
def INST_OPCODE_DP3 : Nat := 0x05
def INST_OPCODE_DP4 : Nat := 0x06
def INST_OPCODE_MOV : Nat := 0x07
def INST_OPCODE_SELECT : Nat := 0x08
def INST_OPCODE_SET : Nat := 0x09
def INST_OPCODE_FRC : Nat := 0x0a
def INST_OPCODE_RCP : Nat := 0x0b
def INST_OPCODE_RSQ : Nat := 0x0c
def INST_OPCODE_SQRT : Nat := 0x0d
def INST_OPCODE_SIN : Nat := 0x0e
def INST_OPCODE_COS : Nat := 0x0f
def INST_OPCODE_SIGN : Nat := 0x10
def INST_OPCODE_FLOOR : Nat := 0x11
def INST_OPCODE_CEIL : Nat := 0x12
def INST_OPCODE_LOG : Nat := 0x13
def INST_OPCODE_EXP : Nat := 0x14
def INST_OPCODE_DIV : Nat := 0x15
def INST_OPCODE_BRANCH : Nat := 0x16
def INST_OPCODE_TEXKILL : Nat := 0x17
def INST_OPCODE_TEXLD : Nat := 0x18
def INST_OPCODE_TEXLDB : Nat := 0x19
def INST_OPCODE_TEXLDL : Nat := 0x1a
def INST_OPCODE_DSX : Nat := 0x1b
def INST_OPCODE_DSY : Nat := 0x1c
def INST_OPCODE_I2F : Nat := 0x1d
def INST_OPCODE_F2I : Nat := 0x1e
def INST_OPCODE_LOAD : Nat := 0x1f

/-- Modelled from the spec: condition codes (`INST_CONDITION_*`), from the same
absent ISA header; only distinctness matters. -/
def INST_CONDITION_TRUE : Nat := 0x00

def INST_CONDITION_GT : Nat := 0x01
def INST_CONDITION_LT : Nat := 0x02
def INST_CONDITION_GE : Nat := 0x03
def INST_CONDITION_EQ : Nat := 0x04
def INST_CONDITION_NE : Nat := 0x05
def INST_CONDITION_NZ : Nat := 0x06
def INST_CONDITION_NOT : Nat := 0x07
def INST_CONDITION_GZ : Nat := 0x08

/-- Modelled from the spec: operand numeric types (`INST_TYPE_*`), from the
same absent ISA header; only distinctness matters. -/
def INST_TYPE_F32 : Nat := 0x00

def INST_TYPE_S32 : Nat := 0x01
def INST_TYPE_U32 : Nat := 0x02

/-- Modelled from the spec: semantic slot keys (`VARYING_SLOT_*` /
`FRAG_RESULT_*` from mesa compiler headers absent from the sources); only
distinctness matters.  `VARYING_SLOT_PNTC` is the reserved point-coordinate
slot. -/
def VARYING_SLOT_POS : Nat := 0

def VARYING_SLOT_PSIZ : Nat := 1
def VARYING_SLOT_PNTC : Nat := 33

def FRAG_RESULT_DEPTH : Nat := 0
def FRAG_RESULT_STENCIL : Nat := 1
def FRAG_RESULT_COLOR : Nat := 2
def FRAG_RESULT_DATA0 : Nat := 4

/-- Modelled from the spec: varying component usage tags
(`VARYING_COMPONENT_USE_*`, absent header); `UNUSED` is the zero default. -/
def VARYING_COMPONENT_USE_UNUSED : Nat := 0

def VARYING_COMPONENT_USE_POINTCOORD_X : Nat := 2
def VARYING_COMPONENT_USE_POINTCOORD_Y : Nat := 3

/-- Modelled from the spec: the fixed maximum input count `ETNA_NUM_INPUTS`
(etnaviv_compiler.h, absent from the sources) is 16; it bounds the varying
table of the link info. -/
def ETNA_NUM_INPUTS : Nat := 16

/- ------------------------------------------------------------------ -/
/- Swizzles.                                                           -/
/- ------------------------------------------------------------------ -/

/-- Modelled from the spec: a swizzle is a byte of four 2-bit lane selectors
(`INST_SWIZ` of etnaviv_asm.h, absent from the sources); `swizGet s i` reads
lane selector `i`. -/
def swizGet (s i : Nat) : Nat := (s >>> (2 * i)) &&& 3

/-- Modelled from the spec: pack four 2-bit lane selectors into one swizzle
byte. -/
def INST_SWIZ (x y z w : Nat) : Nat :=
  (x &&& 3) ||| ((y &&& 3) <<< 2) ||| ((z &&& 3) <<< 4) ||| ((w &&& 3) <<< 6)

/-- Modelled from the spec: the swizzle that broadcasts component `x` to all
four lanes. -/
def INST_SWIZ_BROADCAST (x : Nat) : Nat := INST_SWIZ x x x x

/-- Modelled from the spec: swizzle composition — applying the composed
swizzle is applying `b` and then reading through `a`. -/
def inst_swiz_compose (a b : Nat) : Nat :=
  INST_SWIZ (swizGet a (swizGet b 0)) (swizGet a (swizGet b 1))
    (swizGet a (swizGet b 2)) (swizGet a (swizGet b 3))

/-- Find-first-set helper (C `ffs`): index of the lowest set bit plus one, 0
for the zero argument.  Structural fuel recursion so that it evaluates by
`rfl`/`decide`; `n + 1` units of fuel always suffice since the argument at
least halves each step. -/
def ffsAux (fuel n : Nat) : Nat :=
  match fuel with
  | 0 => 0
  | f + 1 => if n = 0 then 0 else if n % 2 = 1 then 1 else ffsAux f (n / 2) + 1

def ffs (n : Nat) : Nat := ffsAux (n + 1) n

/- ------------------------------------------------------------------ -/
/- Hardware capability record (struct etna_specs, fields used here).   -/
/- ------------------------------------------------------------------ -/

structure EtnaSpecs where
  halti : Nat := 0
  has_halti2_instructions : Bool := false
  has_new_transcendentals : Bool := false
  vertex_sampler_offset : Nat := 8
  max_instructions : Nat := 256
  vertex_output_buffer_size : Nat := 512
  vertex_cache_size : Nat := 16
  shader_core_count : Nat := 1
deriving DecidableEq, Repr

/- ------------------------------------------------------------------ -/
/- Hardware instruction (struct etna_inst and friends).                -/
/- ------------------------------------------------------------------ -/

structure EtnaDst where
  use : Bool := false
  amode : Nat := 0
  reg : Nat := 0
  write_mask : Nat := 0
deriving DecidableEq, Repr

structure EtnaSrc where
  use : Bool := false
  rgroup : Nat := 0
  reg : Nat := 0
  swiz : Nat := 0
  neg : Bool := false
  abs : Bool := false
  amode : Nat := 0
deriving DecidableEq, Repr

/-- One hardware instruction (struct etna_inst).  The C `tex` sub-struct is
flattened into the `texId`/`texAmode`/`texSwiz` fields; everything is
zero-initialized as by a C designated initializer. -/
structure EtnaInst where
  opcode : Nat := 0
  type : Nat := 0
  cond : Nat := 0
  sat : Bool := false
  dst : EtnaDst := {}
  texId : Nat := 0
  texAmode : Nat := 0
  texSwiz : Nat := 0
  src0 : EtnaSrc := {}
  src1 : EtnaSrc := {}
  src2 : EtnaSrc := {}
  imm : Nat := 0
  halti5 : Bool := false
deriving DecidableEq, Repr

/- ------------------------------------------------------------------ -/
/- NIR opcodes and the op-descriptor table (etna_ops).                 -/
/- ------------------------------------------------------------------ -/

/-- The NIR ALU opcodes relevant to the backend: every opcode named in the
`etna_ops` initializer (etnaviv_compiler_nir.c:333-361) plus `ineg` as a
representative of the opcodes left at the table's default (sentinel) fill. -/
inductive NirOp where
  | mov | fneg | fabs | fsat
  | fmul | fadd | ffma
  | fdot2 | fdot3 | fdot4
  | fmin | fmax
  | ffract | frcp | frsq
  | fsqrt | fsin | fcos
  | fsign | ffloor | fceil
  | flog2 | fexp2
  | seq | sne | sge | slt
  | fcsel
  | fdiv
  | fddx | fddy
  | i2f32 | f2u32
  | ineg
deriving DecidableEq, Repr

/-- Source-slot patterns (the `SRC_*` enum, etnaviv_compiler_nir.c:315-323):
three 2-bit fields selecting which logical operand feeds each physical
source slot, 3 meaning "unused". -/
def SRC_0_1_2 : Nat := (0 <<< 0) ||| (1 <<< 2) ||| (2 <<< 4)

def SRC_0_1_X : Nat := (0 <<< 0) ||| (1 <<< 2) ||| (3 <<< 4)
def SRC_0_X_X : Nat := (0 <<< 0) ||| (3 <<< 2) ||| (3 <<< 4)
def SRC_0_X_1 : Nat := (0 <<< 0) ||| (3 <<< 2) ||| (1 <<< 4)
def SRC_0_1_0 : Nat := (0 <<< 0) ||| (1 <<< 2) ||| (0 <<< 4)
def SRC_X_X_0 : Nat := (3 <<< 0) ||| (3 <<< 2) ||| (0 <<< 4)
def SRC_0_X_0 : Nat := (0 <<< 0) ||| (3 <<< 2) ||| (0 <<< 4)

/-- Op descriptor (struct etna_op_info).  The default field values are the
table's designated-initializer default fill `{0xff}`: sentinel opcode 0xff,
all other fields zero. -/
structure EtnaOpInfo where
  opcode : Nat := 0xff
  src : Nat := 0
  cond : Nat := 0
  type : Nat := 0
deriving DecidableEq, Repr

/-- The op-descriptor table `etna_ops` (etnaviv_compiler_nir.c:333-361).
Opcodes not named in the initializer get the default fill `{}`, i.e. the
0xff sentinel entry. -/
def etna_ops : NirOp → EtnaOpInfo
  | .mov => ⟨INST_OPCODE_MOV, SRC_X_X_0, INST_CONDITION_TRUE, INST_TYPE_F32⟩
  | .fneg => ⟨INST_OPCODE_MOV, SRC_X_X_0, INST_CONDITION_TRUE, INST_TYPE_F32⟩
  | .fabs => ⟨INST_OPCODE_MOV, SRC_X_X_0, INST_CONDITION_TRUE, INST_TYPE_F32⟩
  | .fsat => ⟨INST_OPCODE_MOV, SRC_X_X_0, INST_CONDITION_TRUE, INST_TYPE_F32⟩
  | .fmul => ⟨INST_OPCODE_MUL, SRC_0_1_X, INST_CONDITION_TRUE, INST_TYPE_F32⟩
  | .fadd => ⟨INST_OPCODE_ADD, SRC_0_X_1, INST_CONDITION_TRUE, INST_TYPE_F32⟩
  | .ffma => ⟨INST_OPCODE_MAD, SRC_0_1_2, INST_CONDITION_TRUE, INST_TYPE_F32⟩
  | .fdot2 => ⟨INST_OPCODE_DP2, SRC_0_1_X, INST_CONDITION_TRUE, INST_TYPE_F32⟩
  | .fdot3 => ⟨INST_OPCODE_DP3, SRC_0_1_X, INST_CONDITION_TRUE, INST_TYPE_F32⟩
  | .fdot4 => ⟨INST_OPCODE_DP4, SRC_0_1_X, INST_CONDITION_TRUE, INST_TYPE_F32⟩
  | .fmin => ⟨INST_OPCODE_SELECT, SRC_0_1_0, INST_CONDITION_GT, INST_TYPE_F32⟩
  | .fmax => ⟨INST_OPCODE_SELECT, SRC_0_1_0, INST_CONDITION_LT, INST_TYPE_F32⟩
  | .ffract => ⟨INST_OPCODE_FRC, SRC_X_X_0, INST_CONDITION_TRUE, INST_TYPE_F32⟩
  | .frcp => ⟨INST_OPCODE_RCP, SRC_X_X_0, INST_CONDITION_TRUE, INST_TYPE_F32⟩
  | .frsq => ⟨INST_OPCODE_RSQ, SRC_X_X_0, INST_CONDITION_TRUE, INST_TYPE_F32⟩
  | .fsqrt => ⟨INST_OPCODE_SQRT, SRC_X_X_0, INST_CONDITION_TRUE, INST_TYPE_F32⟩
  | .fsin => ⟨INST_OPCODE_SIN, SRC_X_X_0, INST_CONDITION_TRUE, INST_TYPE_F32⟩
  | .fcos => ⟨INST_OPCODE_COS, SRC_X_X_0, INST_CONDITION_TRUE, INST_TYPE_F32⟩
  | .fsign => ⟨INST_OPCODE_SIGN, SRC_X_X_0, INST_CONDITION_TRUE, INST_TYPE_F32⟩
  | .ffloor => ⟨INST_OPCODE_FLOOR, SRC_X_X_0, INST_CONDITION_TRUE, INST_TYPE_F32⟩
  | .fceil => ⟨INST_OPCODE_CEIL, SRC_X_X_0, INST_CONDITION_TRUE, INST_TYPE_F32⟩
  | .flog2 => ⟨INST_OPCODE_LOG, SRC_X_X_0, INST_CONDITION_TRUE, INST_TYPE_F32⟩
  | .fexp2 => ⟨INST_OPCODE_EXP, SRC_X_X_0, INST_CONDITION_TRUE, INST_TYPE_F32⟩
  | .seq => ⟨INST_OPCODE_SET, SRC_0_1_X, INST_CONDITION_EQ, INST_TYPE_F32⟩
  | .sne => ⟨INST_OPCODE_SET, SRC_0_1_X, INST_CONDITION_NE, INST_TYPE_F32⟩
  | .sge => ⟨INST_OPCODE_SET, SRC_0_1_X, INST_CONDITION_GE, INST_TYPE_F32⟩
  | .slt => ⟨INST_OPCODE_SET, SRC_0_1_X, INST_CONDITION_LT, INST_TYPE_F32⟩
  | .fcsel => ⟨INST_OPCODE_SELECT, SRC_0_1_2, INST_CONDITION_NZ, INST_TYPE_F32⟩
  | .fdiv => ⟨INST_OPCODE_DIV, SRC_0_1_X, INST_CONDITION_TRUE, INST_TYPE_F32⟩
  | .fddx => ⟨INST_OPCODE_DSX, SRC_0_X_0, INST_CONDITION_TRUE, INST_TYPE_F32⟩
  | .fddy => ⟨INST_OPCODE_DSY, SRC_0_X_0, INST_CONDITION_TRUE, INST_TYPE_F32⟩
  | .i2f32 => ⟨INST_OPCODE_I2F, SRC_0_X_X, INST_CONDITION_TRUE, INST_TYPE_S32⟩
  | .f2u32 => ⟨INST_OPCODE_F2I, SRC_0_X_X, INST_CONDITION_TRUE, INST_TYPE_U32⟩
  | .ineg => {}

/- ------------------------------------------------------------------ -/
/- ALU emission (etna_emit_alu, etnaviv_compiler_nir.c:369-415).       -/
/- ------------------------------------------------------------------ -/

/-- The opcodes of the `switch` in `etna_emit_alu` that force source 0 to a
broadcast swizzle (single-lane units): the four fall-through transcendentals
plus rsq/rcp/exp2/sqrt/i2f/f2u. -/
def opForcesSrc0Broadcast : NirOp → Bool
  | .fdiv | .flog2 | .fsin | .fcos
  | .frsq | .frcp | .fexp2 | .fsqrt
  | .i2f32 | .f2u32 => true
  | _ => false

/-- The opcodes for which `etna_emit_alu` sets `tex.amode = 1` on targets with
the improved transcendental unit (the cases before the fall-through). -/
def opSetsTransAmode : NirOp → Bool
  | .fdiv | .flog2 | .fsin | .fcos => true
  | _ => false

/-- One step of the source-distribution loop of `etna_emit_alu`: physical slot
`j` receives logical operand `(ei.src >> j*2) & 3` when that selector is below
3, and stays zero-initialized otherwise. -/
def srcFromPattern (pat : Nat) (j : Nat) (src : Fin 3 → EtnaSrc) : EtnaSrc :=
  let i := (pat >>> (j * 2)) &&& 3
  if h : i < 3 then src ⟨i, h⟩ else {}

/-- The function etna_emit_alu (etnaviv_compiler_nir.c:369-415).  The
`assert(ei.opcode != 0xff)` on the looked-up descriptor is modelled as an
explicit check: the sentinel entry aborts emission (`none`) and nothing is
appended to the instruction buffer.  On success the built instruction is
appended to `code`. -/
def etna_emit_alu (specs : EtnaSpecs) (code : List EtnaInst) (op : NirOp)
    (dst : EtnaDst) (src : Fin 3 → EtnaSrc) (saturate : Bool) :
    Option (List EtnaInst) :=
  let ei := etna_ops op
  if ei.opcode = 0xff then none
  else
    let amode : Nat :=
      if opSetsTransAmode op && specs.has_new_transcendentals then 1 else 0
    let src' : Fin 3 → EtnaSrc :=
      if opForcesSrc0Broadcast op then
        Function.update src 0
          { src 0 with
            swiz := inst_swiz_compose (src 0).swiz
              (INST_SWIZ_BROADCAST (ffs dst.write_mask - 1)) }
      else src
    let inst : EtnaInst :=
      { opcode := ei.opcode
        type := ei.type
        cond := ei.cond
        dst := dst
        sat := saturate
        texAmode := amode
        src0 := srcFromPattern ei.src 0 src'
        src1 := srcFromPattern ei.src 1 src'
        src2 := srcFromPattern ei.src 2 src' }
    some (code ++ [inst])

example :
    etna_emit_alu {} [] .ineg {} (fun _ => {}) false = none := by decide

example :
    (etna_emit_alu {} [] .fmul {} (fun _ => {}) false).isSome = true := by
  decide

/- ------------------------------------------------------------------ -/
/- Emission stream, block pointers and branch fixup (C3, C5, C8).      -/
/- ------------------------------------------------------------------ -/

/-- The sequence of code-generation effects driven over the scheduled IR: the
emitter either marks the start of a basic block (`etna_emit_block_start`) or
appends one hardware instruction (`emit_inst`). -/
inductive EmitEvent where
  | blockStart (b : Nat)
  | inst (i : EtnaInst)
deriving DecidableEq, Repr

/-- The code-generation part of struct etna_compile: the flat instruction
buffer (`code`, with `inst_ptr` as its length) and the block number to
instruction index table `block_ptr`.  The C `block_ptr` array is
uninitialized; entries of blocks whose start was never recorded are modelled
as 0. -/
structure EmitState where
  code : List EtnaInst := []
  blockPtr : Nat → Nat := fun _ => 0

/-- The function etna_emit_block_start (etnaviv_compiler_nir.c:363-367): record the
current instruction pointer as the first-instruction index of block `b`. -/
def etna_emit_block_start (st : EmitState) (b : Nat) : EmitState :=
  { st with blockPtr := Function.update st.blockPtr b st.code.length }

/-- The function emit_inst (etnaviv_compiler_nir.c:308-312): append one instruction at
the write cursor. -/
def emit_inst (st : EmitState) (i : EtnaInst) : EmitState :=
  { st with code := st.code ++ [i] }

/-- Run the emitter over a stream of emission events from a given state. -/
def runEmitFrom (st : EmitState) : List EmitEvent → EmitState
  | [] => st
  | .blockStart b :: es => runEmitFrom (etna_emit_block_start st b) es
  | .inst i :: es => runEmitFrom (emit_inst st i) es

/-- Run the emitter from the freshly-created (calloc'd) compile context. -/
def runEmit (es : List EmitEvent) : EmitState := runEmitFrom {} es

/-- The per-instruction body of the assembly/fixup loop
(etnaviv_compiler_nir.c:682-689): a branch instruction's immediate is
rewritten from the symbolic block id to `block_ptr[imm]`, and the
encoding-variant flag `halti5` is set from the capability tier. -/
def fixupInst (specs : EtnaSpecs) (bp : Nat → Nat) (i : EtnaInst) : EtnaInst :=
  let i1 := if i.opcode = INST_OPCODE_BRANCH then { i with imm := bp i.imm } else i
  { i1 with halti5 := decide (specs.halti ≥ 5) }

/-- The label-fixup pass applied over the whole instruction buffer. -/
def fixupCode (specs : EtnaSpecs) (bp : Nat → Nat) (code : List EtnaInst) :
    List EtnaInst :=
  code.map (fixupInst specs bp)

/-- The empty-shader guard (etnaviv_compiler_nir.c:676-678): if the emitter
appended nothing, a single explicit NOP is emitted, so the stream is never
zero-length. -/
def finalizeCode (code : List EtnaInst) : List EtnaInst :=
  if code.length = 0 then [{ opcode := INST_OPCODE_NOP }] else code

/-- Modelled from the spec: `etna_assemble` (etnaviv_asm.c, not among the
sources) serializes one instruction into its fixed-width encoding of exactly
four 32-bit words (the loop writes them at `&code[i * 4]` and the buffer is
sized at 16 bytes per instruction).  The bit layout inside the four words is
not used by any claim; the words here carry the instruction fields in an
arbitrary fixed arrangement. -/
def etna_assemble (i : EtnaInst) : List Nat :=
  [i.opcode ||| (i.cond <<< 8) ||| (i.type <<< 16) |||
     ((if i.sat then 1 else 0) <<< 24) ||| ((if i.halti5 then 1 else 0) <<< 25),
   i.dst.reg ||| (i.dst.write_mask <<< 8) ||| (i.texId <<< 16) ||| (i.texAmode <<< 24),
   i.src0.reg ||| (i.src0.swiz <<< 8) ||| (i.src1.reg <<< 16) ||| (i.src1.swiz <<< 24),
   i.imm % 2 ^ 32]

/-- The assembled machine-code buffer: the fixup pass composed with the
per-instruction serialization, instruction `i` occupying the four words at
word offset `4 * i`. -/
def assembledWords (specs : EtnaSpecs) (bp : Nat → Nat)
    (code : List EtnaInst) : List Nat :=
  (fixupCode specs bp code).flatMap etna_assemble

/-- The recorded code size, `v->code_size = c->inst_ptr * 4`
(etnaviv_compiler_nir.c:691). -/
def v_code_size (code : List EtnaInst) : Nat := code.length * 4

/-- The byte length of the assembled buffer: each of its 32-bit words is four
bytes. -/
def assembledByteLength (specs : EtnaSpecs) (bp : Nat → Nat)
    (code : List EtnaInst) : Nat :=
  4 * (assembledWords specs bp code).length

/- ------------------------------------------------------------------ -/
/- Fragment-stage output routing (C1).                                 -/
/- ------------------------------------------------------------------ -/

/-- A NIR shader variable as the backend sees it: its driver-assigned
location index and its semantic location (slot / fragment result). -/
structure NirVariable where
  driver_location : Nat := 0
  location : Nat := 0
deriving DecidableEq, Repr

/-- The structured errors of a compile.  `compile_error` sets the context's
`error` flag before aborting; a bare `assert` does not. -/
inductive CompileErr where
  | unsupportedFsOutput (loc : Nat)
  | assertionFailed
deriving DecidableEq, Repr

/-- Whether the compile context's `error` flag was set when this error
aborted the compile: `compile_error` (etnaviv_compiler_nir.c:66-70) sets it;
a plain failed `assert` does not. -/
def errorFlagSet : CompileErr → Bool
  | .unsupportedFsOutput _ => true
  | .assertionFailed => false

/-- The fragment-stage special output registers, with their initial values
from etnaviv_compiler_nir.c:586-587 (`ps_color_out_reg = 0`,
`ps_depth_out_reg = -1`). -/
structure FsOutRegs where
  ps_color_out_reg : Int := 0
  ps_depth_out_reg : Int := -1
deriving DecidableEq, Repr

/-- The fragment-output routing loop (etnaviv_compiler_nir.c:700-713): COLOR
and DATA0 route to the color output register, DEPTH to the depth output
register, and any other fragment result location hits `compile_error`, which
aborts the compile with the error flag set. -/
def processFsOutputsLoop (oreg : Nat → Nat) (acc : FsOutRegs) :
    List NirVariable → Except CompileErr FsOutRegs
  | [] => .ok acc
  | v :: rest =>
    if v.location = FRAG_RESULT_COLOR ∨ v.location = FRAG_RESULT_DATA0 then
      processFsOutputsLoop oreg
        { acc with ps_color_out_reg := (oreg v.driver_location : Int) } rest
    else if v.location = FRAG_RESULT_DEPTH then
      processFsOutputsLoop oreg
        { acc with ps_depth_out_reg := (oreg v.driver_location : Int) } rest
    else
      .error (.unsupportedFsOutput v.location)

/-- The result handed back for a fragment-stage compile: the routed special
registers, the (always zero) output-file register count, and the C return
value — `true` means success in `etna_compile_shader_nir`'s convention. -/
structure FsCompileResult where
  regs : FsOutRegs
  outfile_num_reg : Nat
  returned : Bool
deriving DecidableEq, Repr

/-- The fragment-stage tail of `etna_compile_shader_nir`
(etnaviv_compiler_nir.c:697-719): route all outputs, check the
`assert(v->ps_depth_out_reg <= 0)`, zero the output file and return true.
Any unsupported output location aborts the whole compile with a structured
error and no result is produced. -/
def etna_compile_fs_outputs (oreg : Nat → Nat) (outs : List NirVariable) :
    Except CompileErr FsCompileResult :=
  match processFsOutputsLoop oreg {} outs with
  | .error e => .error e
  | .ok r =>
    if r.ps_depth_out_reg ≤ 0 then
      .ok { regs := r, outfile_num_reg := 0, returned := true }
    else .error .assertionFailed

/- ------------------------------------------------------------------ -/
/- Load-balancing word (C4).                                           -/
/- ------------------------------------------------------------------ -/

/-- C unsigned 32-bit subtraction (wraparound modulo 2^32). -/
def usub32 (x y : Nat) : Nat :=
  (x % 2 ^ 32 + (2 ^ 32 - y % 2 ^ 32)) % 2 ^ 32

/-- C unsigned 32-bit multiplication (wraparound modulo 2^32). -/
def umul32 (x y : Nat) : Nat := (x * y) % 2 ^ 32

/-- The quantity `half_out = v->outfile.num_reg / 2 + 1` (etnaviv_compiler_nir.c:763);
always nonzero. -/
def lb_half_out (numReg : Nat) : Nat := numReg / 2 + 1

/-- Coefficient `b` of the load-balancing estimate
(etnaviv_compiler_nir.c:766-769), in C unsigned arithmetic.  The quotients
are small, so only the subtraction and the products need explicit 32-bit
wraparound. -/
def lb_b (specs : EtnaSpecs) (numReg : Nat) : Nat :=
  ((20480 /
      usub32 specs.vertex_output_buffer_size
        (umul32 (2 * lb_half_out numReg) specs.vertex_cache_size)) + 9) / 10

/-- Coefficient `a` of the load-balancing estimate
(etnaviv_compiler_nir.c:770). -/
def lb_a (specs : EtnaSpecs) (numReg : Nat) : Nat :=
  (lb_b specs numReg + 256 / umul32 specs.shader_core_count (lb_half_out numReg)) / 2

/-- Modelled from the spec: the generated-header field-packing macro for
field A of the load-balancing word (bits 0-7): shift into place and mask to
the field. -/
def VIVS_VS_LOAD_BALANCING_A (x : Nat) : Nat := (x <<< 0) &&& 0x000000ff

/-- Modelled from the spec: field B of the load-balancing word, bits 8-15. -/
def VIVS_VS_LOAD_BALANCING_B (x : Nat) : Nat := (x <<< 8) &&& 0x0000ff00

/-- Modelled from the spec: field C of the load-balancing word, bits 16-23. -/
def VIVS_VS_LOAD_BALANCING_C (x : Nat) : Nat := (x <<< 16) &&& 0x00ff0000

/-- Modelled from the spec: field D of the load-balancing word, bits 24-31. -/
def VIVS_VS_LOAD_BALANCING_D (x : Nat) : Nat := (x <<< 24) &&& 0xff000000

/-- The vertex-stage load-balancing word (etnaviv_compiler_nir.c:763-774):
`assert(half_out)` then pack `MIN2(a, 255)`, `MIN2(b, 255)`, 0x3f and 0x0f
into the four fields. -/
def vs_load_balancing (specs : EtnaSpecs) (numReg : Nat) : Option Nat :=
  if lb_half_out numReg = 0 then none
  else
    some (VIVS_VS_LOAD_BALANCING_A (min (lb_a specs numReg) 255) |||
          VIVS_VS_LOAD_BALANCING_B (min (lb_b specs numReg) 255) |||
          VIVS_VS_LOAD_BALANCING_C 0x3f |||
          VIVS_VS_LOAD_BALANCING_D 0x0f)

/- ------------------------------------------------------------------ -/
/- Input/output files and the cross-stage linker (C6, C9, C10).        -/
/- ------------------------------------------------------------------ -/

/-- One entry of a shader's input/output file (struct etna_shader_inout):
hardware register, semantic slot key, component count. -/
structure EtnaShaderInout where
  reg : Nat := 0
  slot : Nat := 0
  num_components : Nat := 0
deriving DecidableEq, Repr

/-- The register-file table being filled by the input-linking setup
(struct etna_shader_io_file); the entry array is modelled as a total map,
entries never written keep their zero initialization. -/
structure EtnaIoFileState where
  regs : Nat → EtnaShaderInout := fun _ => {}
  num_reg : Nat := 0

/-- Vertex-stage input setup (etnaviv_compiler_nir.c:591-598): the input at
driver location `idx` gets hardware register `idx`. -/
def etna_setup_vs_input (st : EtnaIoFileState) (var : NirVariable) :
    EtnaIoFileState :=
  let idx := var.driver_location
  { regs := Function.update st.regs idx
      { reg := idx, slot := var.location, num_components := 4 }
    num_reg := max st.num_reg (idx + 1) }

def etna_setup_vs_inputs (vars : List NirVariable) : EtnaIoFileState :=
  vars.foldl etna_setup_vs_input {}

/-- Fragment-stage input setup (etnaviv_compiler_nir.c:599-610): the input at
driver location `idx` gets hardware register `idx + 1`; the loop also counts
the variables. -/
def etna_setup_fs_input (st : EtnaIoFileState) (var : NirVariable) :
    EtnaIoFileState :=
  let idx := var.driver_location
  { regs := Function.update st.regs idx
      { reg := idx + 1, slot := var.location, num_components := 4 }
    num_reg := max st.num_reg (idx + 1) }

/-- Fragment-stage input setup with its trailing
`assert(sf->num_reg == count)`. -/
def etna_setup_fs_inputs (vars : List NirVariable) : Option EtnaIoFileState :=
  let st := vars.foldl etna_setup_fs_input {}
  if st.num_reg = vars.length then some st else none

/-- One varying-table entry (struct etna_varying).  All fields are
zero-initialized by the caller of the linker; in particular `reg`, the
matched vertex-output register, stays 0 for entries that are never assigned
one (the point-coordinate exemption). -/
structure EtnaVarying where
  pa_attributes : Nat := 0
  num_components : Nat := 0
  use0 : Nat := 0
  use1 : Nat := 0
  use2 : Nat := 0
  use3 : Nat := 0
  reg : Nat := 0
deriving DecidableEq, Repr

/-- The link result (struct etna_shader_link_info); the fixed-size varying
array is modelled as a total map indexed by fragment-input register minus
one. -/
structure EtnaShaderLinkInfo where
  pcoord_varying_comp_ofs : Int := 0
  num_varyings : Nat := 0
  varyings : Nat → EtnaVarying := fun _ => {}

/-- The function etna_shader_vs_lookup (etnaviv_compiler_nir.c:842-851): first vertex
output whose semantic slot matches the fragment input's. -/
def etna_shader_vs_lookup (vsOut : List EtnaShaderInout)
    (fsio : EtnaShaderInout) : Option EtnaShaderInout :=
  vsOut.find? (fun r => r.slot == fsio.slot)

/-- The varying-table index used by the linker for a fragment input:
`&info->varyings[fsio->reg - 1]` (etnaviv_compiler_nir.c:878). -/
def linkVaryingIndex (fsio : EtnaShaderInout) : Nat := fsio.reg - 1

/-- The per-input body and loop of `etna_link_shader_nir`
(etnaviv_compiler_nir.c:867-912).  Faithful points: the
`assert(fsio->reg > 0 && fsio->reg <= ARRAY_SIZE(info->varyings))` is an
explicit check; `num_varyings` ratchets up to the input's register; the
common varying fields (component count, interpolation word, all-unused usage
tags) are written through the entry pointer before the point-coordinate /
lookup branch; a point-coordinate input overwrites usage tags X/Y, records
the running component offset and is never given a vertex register; a
missing vertex output for any other input returns `true` (link error)
immediately; the trailing `assert(info->num_varyings == fs->infile.num_reg)`
guards the success path.  `fsLen` is `fs->infile.num_reg`. -/
def etna_link_loop (vsOut : List EtnaShaderInout) (fsLen : Nat) :
    Nat → EtnaShaderLinkInfo → List EtnaShaderInout →
    Option (Bool × EtnaShaderLinkInfo)
  | _, info, [] =>
    if info.num_varyings = fsLen then some (false, info) else none
  | compOfs, info, fsio :: rest =>
    if fsio.reg > 0 ∧ fsio.reg ≤ ETNA_NUM_INPUTS then
      let info1 :=
        if fsio.reg > info.num_varyings then
          { info with num_varyings := fsio.reg }
        else info
      let interpolate_always := true
      let v0 : EtnaVarying :=
        { info1.varyings (linkVaryingIndex fsio) with
          num_components := fsio.num_components
          pa_attributes := if interpolate_always = false then 0x200 else 0x2f1
          use0 := VARYING_COMPONENT_USE_UNUSED
          use1 := VARYING_COMPONENT_USE_UNUSED
          use2 := VARYING_COMPONENT_USE_UNUSED
          use3 := VARYING_COMPONENT_USE_UNUSED }
      if fsio.slot = VARYING_SLOT_PNTC then
        let v1 := { v0 with
          use0 := VARYING_COMPONENT_USE_POINTCOORD_X
          use1 := VARYING_COMPONENT_USE_POINTCOORD_Y }
        let info2 := { info1 with
          varyings := Function.update info1.varyings (linkVaryingIndex fsio) v1
          pcoord_varying_comp_ofs := (compOfs : Int) }
        etna_link_loop vsOut fsLen (compOfs + fsio.num_components) info2 rest
      else
        match etna_shader_vs_lookup vsOut fsio with
        | none =>
          some (true, { info1 with
            varyings := Function.update info1.varyings (linkVaryingIndex fsio) v0 })
        | some vsio =>
          let info2 := { info1 with
            varyings := Function.update info1.varyings (linkVaryingIndex fsio)
              { v0 with reg := vsio.reg } }
          etna_link_loop vsOut fsLen (compOfs + fsio.num_components) info2 rest
    else none

/-- The function etna_link_shader_nir (etnaviv_compiler_nir.c:853-913): check the input
count against the fixed maximum, initialize the point-coordinate offset to
-1, then run the matching loop.  The returned boolean is `true` on link
error and `false` on success; the two input variants are read-only
parameters and are not modified. -/
def etna_link_shader_nir (vsOut fsIn : List EtnaShaderInout) :
    Option (Bool × EtnaShaderLinkInfo) :=
  if fsIn.length < ETNA_NUM_INPUTS then
    etna_link_loop vsOut fsIn.length 0 { pcoord_varying_comp_ofs := -1 } fsIn
  else none

/- ------------------------------------------------------------------ -/
/- ALU lowering: transcendental widening (C7).                         -/
/- ------------------------------------------------------------------ -/

/-- The two range-reduction constants inserted before sine/cosine
(etnaviv_compiler_nir.c:262-264): 1/pi on targets with the improved
transcendental unit, 2/pi otherwise.  Kept symbolic — their float values
play no role in any claim. -/
inductive ImmTag where
  | invPi
  | twoInvPi
deriving DecidableEq, Repr

/-- A NIR ALU source: the SSA value it reads and its four swizzle selectors.
`nir_alu_instr_create` initializes the swizzle to the identity 0,1,2,3. -/
structure LSrc where
  ssa : Nat
  sw0 : Nat := 0
  sw1 : Nat := 1
  sw2 : Nat := 2
  sw3 : Nat := 3
deriving DecidableEq, Repr

/-- The identity-swizzled source reading a given SSA value. -/
def identSrc (ssaId : Nat) : LSrc := { ssa := ssaId }

/-- A NIR instruction as seen by `etna_lower_alu_impl`: an ALU op (SSA def
id, opcode, destination component count, write mask, saturate flag, sources)
or a load-const from `nir_imm_float` (SSA def id, which constant). -/
inductive LInst where
  | alu (defId : Nat) (op : NirOp) (numComponents : Nat) (writeMask : Nat)
      (sat : Bool) (srcs : List LSrc)
  | imm (defId : Nat) (tag : ImmTag)
deriving DecidableEq, Repr

/-- Apply an accumulated use-substitution to one source. -/
def applySubstSrc (σ : Nat → Nat) (s : LSrc) : LSrc := { s with ssa := σ s.ssa }

/-- Apply an accumulated use-substitution to one instruction (sources only;
SSA defs are never renamed). -/
def applySubstInst (σ : Nat → Nat) : LInst → LInst
  | .alu d op nc wm sat srcs => .alu d op nc wm sat (srcs.map (applySubstSrc σ))
  | .imm d t => .imm d t

/-- The ops affected by the transcendental-widening rewrite
(etnaviv_compiler_nir.c:273-275): divide, log2, sine, cosine. -/
def isTransOp : NirOp → Bool
  | .fdiv | .flog2 | .fsin | .fcos => true
  | _ => false

def isSinCos : NirOp → Bool
  | .fsin | .fcos => true
  | _ => false

/-- The sine/cosine argument pre-multiplication
(etnaviv_compiler_nir.c:259-268): insert a load-const of the range-reduction
constant and a scalar multiply before the instruction, and rewrite the op's
source 0 to read the multiply (keeping its swizzle).  Returns the
instructions to emit before the op, the rewritten op, and the next fresh SSA
id. -/
def lowerSinCosPremul (specs : EtnaSpecs) (fresh : Nat) :
    LInst → List LInst × LInst × Nat
  | .alu d op nc wm sat (s0 :: srest) =>
    if isSinCos op then
      let tag := if specs.has_new_transcendentals then ImmTag.invPi
                 else ImmTag.twoInvPi
      ([.imm fresh tag,
        .alu (fresh + 1) .fmul 1 1 false [identSrc s0.ssa, identSrc fresh]],
       .alu d op nc wm sat ({ s0 with ssa := fresh + 1 } :: srest), fresh + 2)
    else ([], .alu d op nc wm sat (s0 :: srest), fresh)
  | i => ([], i, fresh)

/-- The transcendental widening (etnaviv_compiler_nir.c:273-295) for one
instruction, on targets with the improved transcendental unit: check the
`assert(ssa->num_components == 1)`, widen the op's result to 2 components
and clear its saturate flag, and build the trailing scalar multiply that
reads the widened result twice — its second source swizzled to component 1 —
carrying the op's original saturate flag.  Returns the emitted instruction
group, the use-substitution (original def to multiply's def) to apply to
everything after, and the next fresh id. -/
def lowerTransWidenStep (specs : EtnaSpecs) (fresh : Nat) (i : LInst) :
    Option (List LInst × Option (Nat × Nat) × Nat) :=
  match i with
  | .alu d op nc wm sat srcs =>
    if specs.has_new_transcendentals = true ∧ isTransOp op = true then
      if nc = 1 then
        some ([.alu d op 2 wm false srcs,
               .alu fresh .fmul 1 1 sat
                 [identSrc d, { identSrc d with sw0 := 1 }]],
              some (d, fresh), fresh + 1)
      else none
    else some ([i], none, fresh)
  | i => some ([i], none, fresh)

/-- The instruction walk of `etna_lower_alu_impl` (etnaviv_compiler_nir.c:
250-297).  `nir_ssa_def_rewrite_uses_after` is modelled by threading the
accumulated substitution `σ` and applying it to each instruction as it is
reached (newly inserted instructions are skipped by the safe iteration, as
in C).  `fresh` generates SSA ids for the inserted instructions. -/
def etna_lower_alu_go (specs : EtnaSpecs) (σ : Nat → Nat) (fresh : Nat) :
    List LInst → Option (List LInst)
  | [] => some []
  | i :: rest =>
    let i0 := applySubstInst σ i
    let step := lowerSinCosPremul specs fresh i0
    match lowerTransWidenStep specs step.2.2 step.2.1 with
    | none => none
    | some (em, subPair, fresh2) =>
      let σ1 : Nat → Nat :=
        match subPair with
        | some (a, b) => fun x => if σ x = a then b else σ x
        | none => σ
      match etna_lower_alu_go specs σ1 fresh2 rest with
      | none => none
      | some out => some (step.1 ++ em ++ out)

def etna_lower_alu_impl (specs : EtnaSpecs) (fresh : Nat)
    (prog : List LInst) : Option (List LInst) :=
  etna_lower_alu_go specs (fun x => x) fresh prog

/- ================================================================== -/
/- Theorems.                                                           -/
/- ================================================================== -/

/- Helper lemmas. -/

theorem processFsOutputsLoop_error_of_bad (oreg : Nat → Nat)
    (outs : List NirVariable) (acc : FsOutRegs)
    (hbad : ∃ v ∈ outs, v.location ≠ FRAG_RESULT_COLOR ∧
      v.location ≠ FRAG_RESULT_DATA0 ∧ v.location ≠ FRAG_RESULT_DEPTH) :
    ∃ loc, processFsOutputsLoop oreg acc outs =
      .error (.unsupportedFsOutput loc) := by
  induction outs generalizing acc with
  | nil => rcases hbad with ⟨v, hv, _⟩; cases hv
  | cons h t ih =>
    by_cases hc : h.location = FRAG_RESULT_COLOR ∨ h.location = FRAG_RESULT_DATA0
    · have : ∃ v ∈ t, v.location ≠ FRAG_RESULT_COLOR ∧
          v.location ≠ FRAG_RESULT_DATA0 ∧ v.location ≠ FRAG_RESULT_DEPTH := by
        rcases hbad with ⟨v, hv, hv1, hv2, _⟩
        rcases List.mem_cons.mp hv with rfl | hvt
        · exact absurd hc (by tauto)
        · exact ⟨v, hvt, by tauto⟩
      simpa [processFsOutputsLoop, hc] using ih _ this
    · by_cases hd : h.location = FRAG_RESULT_DEPTH
      · have : ∃ v ∈ t, v.location ≠ FRAG_RESULT_COLOR ∧
            v.location ≠ FRAG_RESULT_DATA0 ∧ v.location ≠ FRAG_RESULT_DEPTH := by
          rcases hbad with ⟨v, hv, hv1, hv2, hv3⟩
          rcases List.mem_cons.mp hv with rfl | hvt
          · exact absurd hd hv3
          · exact ⟨v, hvt, hv1, hv2, hv3⟩
        simpa [processFsOutputsLoop, hc, hd] using ih _ this
      · exact ⟨h.location, by simp [processFsOutputsLoop, hc, hd]⟩

/-- C1: if a fragment-stage compile encounters an output variable whose
location is not a color/data0 or depth result, the whole compile aborts:
`etna_compile_shader_nir` does not return success (no `Except.ok` result, so
no partial variant is handed to the caller) and the condition is surfaced as
a structured error with the compile context's error flag set. -/
theorem fs_unsupported_output_aborts (oreg : Nat → Nat)
    (outs : List NirVariable)
    (hbad : ∃ v ∈ outs, v.location ≠ FRAG_RESULT_COLOR ∧
      v.location ≠ FRAG_RESULT_DATA0 ∧ v.location ≠ FRAG_RESULT_DEPTH) :
    (∃ e, etna_compile_fs_outputs oreg outs = .error e ∧ errorFlagSet e = true) ∧
    ∀ r, etna_compile_fs_outputs oreg outs ≠ .ok r := by
  obtain ⟨loc, hloc⟩ := processFsOutputsLoop_error_of_bad oreg outs {} hbad
  constructor
  · exact ⟨.unsupportedFsOutput loc, by simp [etna_compile_fs_outputs, hloc], rfl⟩
  · intro r hr
    rw [etna_compile_fs_outputs, hloc] at hr
    cases hr

/-- C1 witness: a fragment shader writing the stencil result aborts with the
structured unsupported-output error. -/
theorem fs_unsupported_output_aborts_witness :
    (∃ e, etna_compile_fs_outputs (fun _ => 0)
        [{ driver_location := 0, location := FRAG_RESULT_STENCIL }] = .error e ∧
      errorFlagSet e = true) ∧
    ∀ r, etna_compile_fs_outputs (fun _ => 0)
        [{ driver_location := 0, location := FRAG_RESULT_STENCIL }] ≠ .ok r :=
  fs_unsupported_output_aborts (fun _ => 0)
    [{ driver_location := 0, location := FRAG_RESULT_STENCIL }]
    ⟨{ driver_location := 0, location := FRAG_RESULT_STENCIL }, by decide, by decide⟩

/-- C2: the lookup in `etna_emit_alu` of an opcode whose descriptor is the
invalid sentinel (opcode byte 0xff, the default fill of `etna_ops`) fails
explicitly and appends nothing; whenever emission does append an
instruction, that instruction carries the descriptor's opcode, which is not
the sentinel. -/
theorem emit_alu_sentinel_rejected (specs : EtnaSpecs) (code : List EtnaInst)
    (op : NirOp) (dst : EtnaDst) (src : Fin 3 → EtnaSrc) (sat : Bool) :
    ((etna_ops op).opcode = 0xff →
      etna_emit_alu specs code op dst src sat = none) ∧
    (∀ code', etna_emit_alu specs code op dst src sat = some code' →
      ∃ inst, code' = code ++ [inst] ∧ inst.opcode = (etna_ops op).opcode ∧
        inst.opcode ≠ 0xff) := by
  constructor
  · intro h
    simp [etna_emit_alu, h]
  · intro code' h
    by_cases hs : (etna_ops op).opcode = 0xff
    · simp [etna_emit_alu, hs] at h
    · simp only [etna_emit_alu, hs, if_false] at h
      exact ⟨_, (Option.some.inj h).symm, rfl, hs⟩

/-- C2 witness: `ineg` has no descriptor (sentinel entry), and emitting it
fails with nothing appended. -/
theorem emit_alu_sentinel_rejected_witness :
    etna_emit_alu {} [] .ineg {} (fun _ => {}) false = none :=
  (emit_alu_sentinel_rejected {} [] .ineg {} (fun _ => {}) false).1 (by decide)

/-- C5: if the emitter appended no instruction, the final instruction stream
is exactly the one explicit NOP instruction, and the finalized stream is
never zero-length. -/
theorem empty_shader_single_nop (code : List EtnaInst) :
    (code.length = 0 → finalizeCode code = [{ opcode := INST_OPCODE_NOP }]) ∧
    0 < (finalizeCode code).length := by
  constructor
  · intro h
    simp [finalizeCode, h]
  · by_cases h : code.length = 0
    · simp [finalizeCode, h]
    · simp [finalizeCode, h]
      omega

/-- C5 witness: the empty stream finalizes to the single NOP. -/
theorem empty_shader_single_nop_witness :
    finalizeCode [] = [{ opcode := INST_OPCODE_NOP }] ∧
    0 < (finalizeCode []).length :=
  ⟨(empty_shader_single_nop []).1 rfl, (empty_shader_single_nop []).2⟩

/- Emission-state lemmas for the block/label resolver. -/

theorem runEmitFrom_append (st : EmitState) (xs ys : List EmitEvent) :
    runEmitFrom st (xs ++ ys) = runEmitFrom (runEmitFrom st xs) ys := by
  induction xs generalizing st with
  | nil => simp [runEmitFrom]
  | cons e t ih =>
    cases e with
    | blockStart b => simpa [runEmitFrom] using ih _
    | inst i => simpa [runEmitFrom] using ih _

theorem runEmitFrom_code_append (st : EmitState) (es : List EmitEvent) :
    ∃ t, (runEmitFrom st es).code = st.code ++ t := by
  induction es generalizing st with
  | nil => exact ⟨[], by simp [runEmitFrom]⟩
  | cons e t ih =>
    cases e with
    | blockStart b =>
      obtain ⟨u, hu⟩ := ih (etna_emit_block_start st b)
      exact ⟨u, by simpa [runEmitFrom, etna_emit_block_start] using hu⟩
    | inst i =>
      obtain ⟨u, hu⟩ := ih (emit_inst st i)
      refine ⟨i :: u, ?_⟩
      rw [runEmitFrom, hu]
      simp [emit_inst]

theorem runEmitFrom_blockPtr_stable (st : EmitState) (es : List EmitEvent)
    (b : Nat) (h : ∀ e ∈ es, e ≠ EmitEvent.blockStart b) :
    (runEmitFrom st es).blockPtr b = st.blockPtr b := by
  induction es generalizing st with
  | nil => rfl
  | cons e t ih =>
    cases e with
    | blockStart b' =>
      have hb : b' ≠ b := by
        intro hb
        exact h _ (List.mem_cons_self _ _) (by rw [hb])
      rw [runEmitFrom, ih _ (fun e he => h e (List.mem_cons_of_mem _ he))]
      exact Function.update_noteq (Ne.symm hb) _ _
    | inst i =>
      rw [runEmitFrom, ih _ (fun e he => h e (List.mem_cons_of_mem _ he))]
      rfl

theorem runEmitFrom_code_stable (st : EmitState) (es : List EmitEvent)
    (h : ∀ e ∈ es, ∃ c, e = EmitEvent.blockStart c) :
    (runEmitFrom st es).code = st.code := by
  induction es generalizing st with
  | nil => rfl
  | cons e t ih =>
    obtain ⟨c, rfl⟩ := h _ (List.mem_cons_self _ _)
    rw [runEmitFrom, ih _ (fun e he => h e (List.mem_cons_of_mem _ he))]
    rfl

/-- C3: after the assembly/fixup pass, every branch instruction's immediate
field equals `block_ptr` at its symbolic target; and for every block `b`
whose start was recorded (and not recorded again later), `block_ptr[b]` is
the instruction-buffer index current when block `b`'s emission started —
which is exactly the index of the first instruction emitted for block `b`. -/
theorem branch_resolution_correct (specs : EtnaSpecs) (es : List EmitEvent) :
    (∀ (k : Nat) (i : EtnaInst), (runEmit es).code[k]? = some i →
      i.opcode = INST_OPCODE_BRANCH →
      (fixupCode specs (runEmit es).blockPtr (runEmit es).code)[k]? =
        some (fixupInst specs (runEmit es).blockPtr i) ∧
      (fixupInst specs (runEmit es).blockPtr i).imm =
        (runEmit es).blockPtr i.imm) ∧
    (∀ b pre post, es = pre ++ EmitEvent.blockStart b :: post →
      (∀ e ∈ post, e ≠ EmitEvent.blockStart b) →
      (runEmit es).blockPtr b = (runEmit pre).code.length ∧
      (∀ gap i rest, post = gap ++ EmitEvent.inst i :: rest →
        (∀ e ∈ gap, ∃ c, e = EmitEvent.blockStart c) →
        (runEmit es).code[(runEmit pre).code.length]? = some i)) := by
  constructor
  · intro k i hk hbr
    constructor
    · rw [fixupCode, List.getElem?_map, hk]
      rfl
    · simp [fixupInst, hbr]
  · intro b pre post hsplit hpost
    have hrun : runEmit es =
        runEmitFrom (etna_emit_block_start (runEmit pre) b) post := by
      rw [runEmit, hsplit, runEmitFrom_append]
      rfl
    constructor
    · rw [hrun, runEmitFrom_blockPtr_stable _ _ _ hpost]
      simp [etna_emit_block_start]
    · intro gap i rest hgap hgapstarts
      rw [hrun, hgap, runEmitFrom_append]
      have hcode1 : (runEmitFrom (etna_emit_block_start (runEmit pre) b) gap).code
          = (runEmit pre).code := by
        rw [runEmitFrom_code_stable _ _ hgapstarts]
        rfl
      rw [runEmitFrom]
      obtain ⟨t, ht⟩ := runEmitFrom_code_append
        (emit_inst (runEmitFrom (etna_emit_block_start (runEmit pre) b) gap) i) rest
      rw [ht]
      simp [emit_inst, hcode1, List.append_assoc, List.getElem_append_right]

/-- C3 witness: a two-block stream with a forward branch; the branch's fixed
immediate equals `block_ptr` of the target, which is the index of the first
instruction of that block. -/
theorem branch_resolution_correct_witness :
    ((fixupCode {} (runEmit [EmitEvent.blockStart 0,
        EmitEvent.inst { opcode := INST_OPCODE_BRANCH, imm := 1 },
        EmitEvent.blockStart 1,
        EmitEvent.inst { opcode := INST_OPCODE_NOP }]).blockPtr
      (runEmit [EmitEvent.blockStart 0,
        EmitEvent.inst { opcode := INST_OPCODE_BRANCH, imm := 1 },
        EmitEvent.blockStart 1,
        EmitEvent.inst { opcode := INST_OPCODE_NOP }]).code)[0]? =
      some (fixupInst {} (runEmit [EmitEvent.blockStart 0,
        EmitEvent.inst { opcode := INST_OPCODE_BRANCH, imm := 1 },
        EmitEvent.blockStart 1,
        EmitEvent.inst { opcode := INST_OPCODE_NOP }]).blockPtr
        { opcode := INST_OPCODE_BRANCH, imm := 1 })) ∧
    (runEmit [EmitEvent.blockStart 0,
        EmitEvent.inst { opcode := INST_OPCODE_BRANCH, imm := 1 },
        EmitEvent.blockStart 1,
        EmitEvent.inst { opcode := INST_OPCODE_NOP }]).blockPtr 1 =
      (runEmit [EmitEvent.blockStart 0,
        EmitEvent.inst { opcode := INST_OPCODE_BRANCH, imm := 1 }]).code.length := by
  have h := branch_resolution_correct {}
    [EmitEvent.blockStart 0,
     EmitEvent.inst { opcode := INST_OPCODE_BRANCH, imm := 1 },
     EmitEvent.blockStart 1,
     EmitEvent.inst { opcode := INST_OPCODE_NOP }]
  refine ⟨(h.1 0 { opcode := INST_OPCODE_BRANCH, imm := 1 } ?_ rfl).1, ?_⟩
  · decide
  · exact (h.2 1
      [EmitEvent.blockStart 0,
       EmitEvent.inst { opcode := INST_OPCODE_BRANCH, imm := 1 }]
      [EmitEvent.inst { opcode := INST_OPCODE_NOP }] rfl (by decide)).1

/- Assembly-size lemmas (C8). -/

theorem flatMap_assemble_length (l : List EtnaInst) :
    (l.flatMap etna_assemble).length = 4 * l.length := by
  induction l with
  | nil => rfl
  | cons h t ih =>
    rw [List.flatMap_cons, List.length_append, ih, List.length_cons]
    have h4 : (etna_assemble h).length = 4 := rfl
    rw [h4]
    ring

theorem flatMap_assemble_extract (l : List EtnaInst) (k : Nat) (i : EtnaInst)
    (hk : l[k]? = some i) :
    ((l.flatMap etna_assemble).drop (4 * k)).take 4 = etna_assemble i := by
  induction l generalizing k with
  | nil => cases hk
  | cons h t ih =>
    cases k with
    | zero =>
      simp only [List.getElem?_cons_zero, Option.some.injEq] at hk
      subst hk
      rw [List.flatMap_cons, Nat.mul_zero, List.drop_zero]
      have h4 : (etna_assemble h).length = 4 := rfl
      rw [← h4, List.take_left]
    | succ k' =>
      rw [List.getElem?_cons_succ] at hk
      rw [List.flatMap_cons]
      have hsplit : 4 * (k' + 1) = (etna_assemble h).length + 4 * k' := by
        have h4 : (etna_assemble h).length = 4 := rfl
        rw [h4]
        ring
      rw [hsplit, List.drop_append]
      exact ih k' hk

/-- C8 counterexample: the recorded code size is not the byte length of the
assembled buffer.  For a single-instruction stream `v->code_size` is 4 while
the assembled buffer is four 32-bit words, i.e. 16 bytes. -/
theorem code_size_not_bytes_cex :
    v_code_size [{ opcode := INST_OPCODE_NOP }] ≠
      assembledByteLength {} (fun _ => 0) [{ opcode := INST_OPCODE_NOP }] := by
  decide

/-- C8 (amended): the recorded code size `v->code_size = inst_ptr * 4` is
expressed in 32-bit words, not bytes: it equals the word length of the
assembled buffer, which is four words per instruction, instruction `k`
occupying the words at word offset `4*k`; the byte length of the buffer is
`4 * code_size` (16 bytes per instruction). -/
theorem code_size_counts_words (specs : EtnaSpecs) (bp : Nat → Nat)
    (code : List EtnaInst) :
    v_code_size code = (assembledWords specs bp code).length ∧
    (assembledWords specs bp code).length = 4 * code.length ∧
    assembledByteLength specs bp code = 4 * v_code_size code ∧
    (∀ (k : Nat) (i : EtnaInst), code[k]? = some i →
      ((assembledWords specs bp code).drop (4 * k)).take 4 =
        etna_assemble (fixupInst specs bp i)) := by
  have hlen : (assembledWords specs bp code).length = 4 * code.length := by
    rw [assembledWords, flatMap_assemble_length, fixupCode, List.length_map]
  refine ⟨?_, hlen, ?_, ?_⟩
  · rw [hlen, v_code_size]
    ring
  · rw [assembledByteLength, hlen, v_code_size]
    ring
  · intro k i hk
    rw [assembledWords]
    apply flatMap_assemble_extract
    rw [fixupCode, List.getElem?_map, hk]
    rfl

/-- C8 amended-theorem witness: for the single NOP stream, the size equation
and the word-offset extraction hold concretely at index 0. -/
theorem code_size_counts_words_witness :
    v_code_size [{ opcode := INST_OPCODE_NOP }] =
      (assembledWords {} (fun _ => 0) [{ opcode := INST_OPCODE_NOP }]).length ∧
    ((assembledWords {} (fun _ => 0) [{ opcode := INST_OPCODE_NOP }]).drop 0).take 4 =
      etna_assemble (fixupInst {} (fun _ => 0) { opcode := INST_OPCODE_NOP }) := by
  have h := code_size_counts_words {} (fun _ => 0) [{ opcode := INST_OPCODE_NOP }]
  exact ⟨h.1, by simpa using h.2.2.2 0 { opcode := INST_OPCODE_NOP } rfl⟩

/- Bit-field lemmas for the load-balancing word (C4). -/

theorem testBit_byte_false {x : Nat} (hx : x < 256) {j : Nat} (hj : 8 ≤ j) :
    x.testBit j = false := by
  apply Nat.testBit_lt_two_pow
  calc x < 256 := hx
  _ = 2 ^ 8 := by norm_num
  _ ≤ 2 ^ j := Nat.pow_le_pow_right (by norm_num) hj

theorem mask_shift_eq {x n k : Nat} (h : x < 2 ^ n) :
    (x <<< k) &&& ((2 ^ n - 1) <<< k) = x <<< k := by
  apply Nat.eq_of_testBit_eq
  intro j
  simp only [Nat.testBit_and, Nat.testBit_shiftLeft, Nat.testBit_two_pow_sub_one]
  by_cases hjk : j ≥ k
  · by_cases hjn : j - k < n
    · simp [hjk, hjn]
    · have hx : x.testBit (j - k) = false :=
        Nat.testBit_lt_two_pow
          (lt_of_lt_of_le h (Nat.pow_le_pow_right (by norm_num) (by omega)))
      simp [hx]
  · simp [hjk]

theorem pack_extract_0 {a : Nat} (b c d : Nat) (ha : a < 256) :
    (a ||| b <<< 8 ||| c <<< 16 ||| d <<< 24) &&& 0xff = a := by
  have h255 : (0xff : Nat) = 2 ^ 8 - 1 := by norm_num
  apply Nat.eq_of_testBit_eq
  intro j
  rw [h255]
  simp only [Nat.testBit_and, Nat.testBit_or, Nat.testBit_shiftLeft,
    Nat.testBit_two_pow_sub_one]
  by_cases hj : j < 8
  · have h8 : ¬ (j ≥ 8) := by omega
    have h16 : ¬ (j ≥ 16) := by omega
    have h24 : ¬ (j ≥ 24) := by omega
    simp [h8, h16, h24, hj]
  · have hx : a.testBit j = false := testBit_byte_false ha (by omega)
    simp [hj, hx]

theorem pack_extract_8 {a b : Nat} (c d : Nat) (ha : a < 256) (hb : b < 256) :
    ((a ||| b <<< 8 ||| c <<< 16 ||| d <<< 24) >>> 8) &&& 0xff = b := by
  have h255 : (0xff : Nat) = 2 ^ 8 - 1 := by norm_num
  apply Nat.eq_of_testBit_eq
  intro j
  rw [h255]
  simp only [Nat.testBit_and, Nat.testBit_shiftRight, Nat.testBit_or,
    Nat.testBit_shiftLeft, Nat.testBit_two_pow_sub_one]
  by_cases hj : j < 8
  · have hxa : a.testBit (8 + j) = false := testBit_byte_false ha (by omega)
    have h8 : 8 + j ≥ 8 := by omega
    have h16 : ¬ (8 + j ≥ 16) := by omega
    have h24 : ¬ (8 + j ≥ 24) := by omega
    have hsub : 8 + j - 8 = j := by omega
    simp [hxa, h8, h16, h24, hj, hsub]
  · have hxb : b.testBit j = false := testBit_byte_false hb (by omega)
    simp [hj, hxb]

theorem pack_extract_16 {a b c : Nat} (d : Nat) (ha : a < 256) (hb : b < 256)
    (hc : c < 256) :
    ((a ||| b <<< 8 ||| c <<< 16 ||| d <<< 24) >>> 16) &&& 0xff = c := by
  have h255 : (0xff : Nat) = 2 ^ 8 - 1 := by norm_num
  apply Nat.eq_of_testBit_eq
  intro j
  rw [h255]
  simp only [Nat.testBit_and, Nat.testBit_shiftRight, Nat.testBit_or,
    Nat.testBit_shiftLeft, Nat.testBit_two_pow_sub_one]
  by_cases hj : j < 8
  · have hxa : a.testBit (16 + j) = false := testBit_byte_false ha (by omega)
    have hxb : b.testBit (16 + j - 8) = false := testBit_byte_false hb (by omega)
    have h8 : 16 + j ≥ 8 := by omega
    have h16 : 16 + j ≥ 16 := by omega
    have h24 : ¬ (16 + j ≥ 24) := by omega
    have hsub : 16 + j - 16 = j := by omega
    simp [hxa, hxb, h8, h16, h24, hj, hsub]
  · have hxc : c.testBit j = false := testBit_byte_false hc (by omega)
    simp [hj, hxc]

theorem pack_extract_24 {a b c d : Nat} (ha : a < 256) (hb : b < 256)
    (hc : c < 256) (hd : d < 256) :
    ((a ||| b <<< 8 ||| c <<< 16 ||| d <<< 24) >>> 24) &&& 0xff = d := by
  have h255 : (0xff : Nat) = 2 ^ 8 - 1 := by norm_num
  apply Nat.eq_of_testBit_eq
  intro j
  rw [h255]
  simp only [Nat.testBit_and, Nat.testBit_shiftRight, Nat.testBit_or,
    Nat.testBit_shiftLeft, Nat.testBit_two_pow_sub_one]
  by_cases hj : j < 8
  · have hxa : a.testBit (24 + j) = false := testBit_byte_false ha (by omega)
    have hxb : b.testBit (24 + j - 8) = false := testBit_byte_false hb (by omega)
    have hxc : c.testBit (24 + j - 16) = false := testBit_byte_false hc (by omega)
    have h8 : 24 + j ≥ 8 := by omega
    have h16 : 24 + j ≥ 16 := by omega
    have h24 : 24 + j ≥ 24 := by omega
    have hsub : 24 + j - 24 = j := by omega
    simp [hxa, hxb, hxc, h8, h16, h24, hj, hsub]
  · have hxd : d.testBit j = false := testBit_byte_false hd (by omega)
    simp [hj, hxd]

/-- C4: for a vertex-stage compile with `numReg` non-position/non-pointsize
outputs, `half = numReg/2 + 1` is always nonzero (so the guard passes and a
word is returned), and the returned load-balancing word packs
`min(a, 255)` in field A (bits 0-7), `min(b, 255)` in field B (bits 8-15),
the constant 0x3f in field C (bits 16-23) and the constant 0x0f in field D
(bits 24-31), where `b` and `a` are the closed-form unsigned-integer
formulas `lb_b`/`lb_a` of the source. -/
theorem vs_load_balancing_packs_fields (specs : EtnaSpecs) (numReg : Nat) :
    ∃ w, vs_load_balancing specs numReg = some w ∧
      w &&& 0xff = min (lb_a specs numReg) 255 ∧
      (w >>> 8) &&& 0xff = min (lb_b specs numReg) 255 ∧
      (w >>> 16) &&& 0xff = 0x3f ∧
      (w >>> 24) &&& 0xff = 0x0f := by
  have hhalf : ¬ (lb_half_out numReg = 0) := by simp [lb_half_out]
  have ha : min (lb_a specs numReg) 255 < 256 :=
    lt_of_le_of_lt (min_le_right _ _) (by norm_num)
  have hb : min (lb_b specs numReg) 255 < 256 :=
    lt_of_le_of_lt (min_le_right _ _) (by norm_num)
  have hA : VIVS_VS_LOAD_BALANCING_A (min (lb_a specs numReg) 255) =
      min (lb_a specs numReg) 255 := by
    rw [VIVS_VS_LOAD_BALANCING_A, Nat.shiftLeft_zero]
    have h255 : (0xff : Nat) = 2 ^ 8 - 1 := by norm_num
    rw [h255]
    exact Nat.and_pow_two_sub_one_of_lt_two_pow ha
  have hB : VIVS_VS_LOAD_BALANCING_B (min (lb_b specs numReg) 255) =
      min (lb_b specs numReg) 255 <<< 8 := by
    rw [VIVS_VS_LOAD_BALANCING_B]
    have hm : (0xff00 : Nat) = (2 ^ 8 - 1) <<< 8 := by decide
    rw [hm]
    exact mask_shift_eq hb
  have hC : VIVS_VS_LOAD_BALANCING_C 0x3f = 0x3f <<< 16 := by decide
  have hD : VIVS_VS_LOAD_BALANCING_D 0x0f = 0x0f <<< 24 := by decide
  refine ⟨_, by rw [vs_load_balancing, if_neg hhalf], ?_, ?_, ?_, ?_⟩
  · rw [hA, hB, hC, hD]
    exact pack_extract_0 _ _ _ ha
  · rw [hA, hB, hC, hD]
    exact pack_extract_8 _ _ ha hb
  · rw [hA, hB, hC, hD]
    exact pack_extract_16 _ ha hb (by norm_num)
  · rw [hA, hB, hC, hD]
    exact pack_extract_24 ha hb (by norm_num) (by norm_num)

/- Input-setup lemmas (C10). -/

theorem setup_vs_reg_preserved (vars : List NirVariable) (st : EtnaIoFileState)
    (idx : Nat) (h : (st.regs idx).reg = idx) :
    ((vars.foldl etna_setup_vs_input st).regs idx).reg = idx := by
  induction vars generalizing st with
  | nil => exact h
  | cons v t ih =>
    rw [List.foldl_cons]
    apply ih
    by_cases hv : v.driver_location = idx
    · simp [etna_setup_vs_input, hv, Function.update_same]
    · simp only [etna_setup_vs_input]
      rw [Function.update_noteq (Ne.symm hv)]
      exact h

theorem setup_vs_reg_eq (vars : List NirVariable) (st : EtnaIoFileState)
    (idx : Nat) (h : ∃ var ∈ vars, var.driver_location = idx) :
    ((vars.foldl etna_setup_vs_input st).regs idx).reg = idx := by
  induction vars generalizing st with
  | nil => rcases h with ⟨v, hv, _⟩; cases hv
  | cons v t ih =>
    rw [List.foldl_cons]
    by_cases hv : v.driver_location = idx
    · apply setup_vs_reg_preserved
      simp [etna_setup_vs_input, hv, Function.update_same]
    · apply ih
      rcases h with ⟨u, hu, hui⟩
      rcases List.mem_cons.mp hu with rfl | hut
      · exact absurd hui hv
      · exact ⟨u, hut, hui⟩

theorem setup_fs_reg_preserved (vars : List NirVariable) (st : EtnaIoFileState)
    (idx : Nat) (h : (st.regs idx).reg = idx + 1) :
    ((vars.foldl etna_setup_fs_input st).regs idx).reg = idx + 1 := by
  induction vars generalizing st with
  | nil => exact h
  | cons v t ih =>
    rw [List.foldl_cons]
    apply ih
    by_cases hv : v.driver_location = idx
    · simp [etna_setup_fs_input, hv, Function.update_same]
    · simp only [etna_setup_fs_input]
      rw [Function.update_noteq (Ne.symm hv)]
      exact h

theorem setup_fs_reg_eq (vars : List NirVariable) (st : EtnaIoFileState)
    (idx : Nat) (h : ∃ var ∈ vars, var.driver_location = idx) :
    ((vars.foldl etna_setup_fs_input st).regs idx).reg = idx + 1 := by
  induction vars generalizing st with
  | nil => rcases h with ⟨v, hv, _⟩; cases hv
  | cons v t ih =>
    rw [List.foldl_cons]
    by_cases hv : v.driver_location = idx
    · apply setup_fs_reg_preserved
      simp [etna_setup_fs_input, hv, Function.update_same]
    · apply ih
      rcases h with ⟨u, hu, hui⟩
      rcases List.mem_cons.mp hu with rfl | hut
      · exact absurd hui hv
      · exact ⟨u, hut, hui⟩

/-- C10: input-register numbering is stage-dependent — a vertex-stage input
declared at driver location `idx` is assigned hardware register `idx`, while
a fragment-stage input at driver location `idx` is assigned register
`idx + 1` (hence every fragment input register is at least 1); the linker
addresses the varying table of a fragment input with register `r` at index
`r - 1`, which is in range whenever `1 ≤ r ≤ ETNA_NUM_INPUTS`, the size of
the varying array. -/
theorem input_register_numbering (vars : List NirVariable) (idx : Nat)
    (fsio : EtnaShaderInout) :
    ((∃ var ∈ vars, var.driver_location = idx) →
      ((etna_setup_vs_inputs vars).regs idx).reg = idx) ∧
    (∀ st, etna_setup_fs_inputs vars = some st →
      (∃ var ∈ vars, var.driver_location = idx) →
      (st.regs idx).reg = idx + 1 ∧ 1 ≤ (st.regs idx).reg) ∧
    linkVaryingIndex fsio = fsio.reg - 1 ∧
    (1 ≤ fsio.reg → fsio.reg ≤ ETNA_NUM_INPUTS →
      linkVaryingIndex fsio < ETNA_NUM_INPUTS) := by
  refine ⟨?_, ?_, rfl, ?_⟩
  · intro h
    exact setup_vs_reg_eq vars {} idx h
  · intro st hst h
    rw [etna_setup_fs_inputs] at hst
    by_cases hc : (vars.foldl etna_setup_fs_input {}).num_reg = vars.length
    · rw [if_pos hc] at hst
      obtain rfl : vars.foldl etna_setup_fs_input {} = st := Option.some.inj hst
      have := setup_fs_reg_eq vars {} idx h
      exact ⟨this, by omega⟩
    · rw [if_neg hc] at hst
      cases hst
  · intro h1 h16
    rw [linkVaryingIndex, ETNA_NUM_INPUTS] at *
    omega

/-- C10 witness: a single input at driver location 0 gets vertex register 0
but fragment register 1; a fragment input with register 3 addresses varying
entry 2, in range. -/
theorem input_register_numbering_witness :
    ((etna_setup_vs_inputs [{ driver_location := 0, location := 5 }]).regs 0).reg = 0 ∧
    (([({ driver_location := 0, location := 5 } : NirVariable)].foldl
        etna_setup_fs_input {}).regs 0).reg = 0 + 1 ∧
    linkVaryingIndex { reg := 3, slot := 0, num_components := 4 } <
      ETNA_NUM_INPUTS := by
  have h := input_register_numbering [{ driver_location := 0, location := 5 }] 0
    { reg := 3, slot := 0, num_components := 4 }
  have hex : ∃ var ∈ [({ driver_location := 0, location := 5 } : NirVariable)],
      var.driver_location = 0 :=
    ⟨{ driver_location := 0, location := 5 }, by decide, rfl⟩
  exact ⟨h.1 hex, (h.2.1 _ rfl hex).1, h.2.2.2 (by decide) (by decide)⟩

/- Linker-loop lemmas (C6, C9). -/

theorem link_loop_true_of_bad (vsOut : List EtnaShaderInout) (fsLen : Nat)
    (rest : List EtnaShaderInout) (compOfs : Nat) (info : EtnaShaderLinkInfo)
    (hregs : ∀ io ∈ rest, 0 < io.reg ∧ io.reg ≤ ETNA_NUM_INPUTS)
    (hbad : ∃ fsio ∈ rest, fsio.slot ≠ VARYING_SLOT_PNTC ∧
      etna_shader_vs_lookup vsOut fsio = none) :
    ∃ info', etna_link_loop vsOut fsLen compOfs info rest = some (true, info') := by
  induction rest generalizing compOfs info with
  | nil => rcases hbad with ⟨v, hv, _⟩; cases hv
  | cons h t ih =>
    have hg : h.reg > 0 ∧ h.reg ≤ ETNA_NUM_INPUTS := hregs h (List.mem_cons_self _ _)
    have hregs' : ∀ io ∈ t, 0 < io.reg ∧ io.reg ≤ ETNA_NUM_INPUTS :=
      fun io hio => hregs io (List.mem_cons_of_mem _ hio)
    by_cases hp : h.slot = VARYING_SLOT_PNTC
    · have hbad' : ∃ fsio ∈ t, fsio.slot ≠ VARYING_SLOT_PNTC ∧
          etna_shader_vs_lookup vsOut fsio = none := by
        rcases hbad with ⟨v, hv, hv1, hv2⟩
        rcases List.mem_cons.mp hv with rfl | hvt
        · exact absurd hp hv1
        · exact ⟨v, hvt, hv1, hv2⟩
      rw [etna_link_loop, if_pos hg]
      simp only [if_pos hp]
      exact ih _ _ hregs' hbad'
    · cases hlook : etna_shader_vs_lookup vsOut h with
      | none =>
        rw [etna_link_loop, if_pos hg]
        simp only [if_neg hp, hlook]
        exact ⟨_, rfl⟩
      | some vsio =>
        have hbad' : ∃ fsio ∈ t, fsio.slot ≠ VARYING_SLOT_PNTC ∧
            etna_shader_vs_lookup vsOut fsio = none := by
          rcases hbad with ⟨v, hv, hv1, hv2⟩
          rcases List.mem_cons.mp hv with rfl | hvt
          · rw [hlook] at hv2; cases hv2
          · exact ⟨v, hvt, hv1, hv2⟩
        rw [etna_link_loop, if_pos hg]
        simp only [if_neg hp, hlook]
        exact ih _ _ hregs' hbad'

theorem link_loop_exists_of_true (vsOut : List EtnaShaderInout) (fsLen : Nat)
    (rest : List EtnaShaderInout) (compOfs : Nat) (info : EtnaShaderLinkInfo)
    (info' : EtnaShaderLinkInfo)
    (hrun : etna_link_loop vsOut fsLen compOfs info rest = some (true, info')) :
    ∃ fsio ∈ rest, fsio.slot ≠ VARYING_SLOT_PNTC ∧
      etna_shader_vs_lookup vsOut fsio = none := by
  induction rest generalizing compOfs info with
  | nil =>
    rw [etna_link_loop] at hrun
    by_cases hc : info.num_varyings = fsLen
    · rw [if_pos hc] at hrun
      simp at hrun
    · rw [if_neg hc] at hrun
      cases hrun
  | cons h t ih =>
    rw [etna_link_loop] at hrun
    by_cases hg : h.reg > 0 ∧ h.reg ≤ ETNA_NUM_INPUTS
    · rw [if_pos hg] at hrun
      by_cases hp : h.slot = VARYING_SLOT_PNTC
      · simp only [if_pos hp] at hrun
        obtain ⟨v, hv, hv1, hv2⟩ := ih _ _ hrun
        exact ⟨v, List.mem_cons_of_mem _ hv, hv1, hv2⟩
      · simp only [if_neg hp] at hrun
        cases hlook : etna_shader_vs_lookup vsOut h with
        | none => exact ⟨h, List.mem_cons_self _ _, hp, hlook⟩
        | some vsio =>
          simp only [hlook] at hrun
          obtain ⟨v, hv, hv1, hv2⟩ := ih _ _ hrun
          exact ⟨v, List.mem_cons_of_mem _ hv, hv1, hv2⟩
    · rw [if_neg hg] at hrun
      cases hrun

theorem link_loop_matched_of_false (vsOut : List EtnaShaderInout) (fsLen : Nat)
    (rest : List EtnaShaderInout) (compOfs : Nat) (info : EtnaShaderLinkInfo)
    (info' : EtnaShaderLinkInfo)
    (hrun : etna_link_loop vsOut fsLen compOfs info rest = some (false, info')) :
    ∀ fsio ∈ rest, fsio.slot = VARYING_SLOT_PNTC ∨
      etna_shader_vs_lookup vsOut fsio ≠ none := by
  induction rest generalizing compOfs info with
  | nil => intro v hv; cases hv
  | cons h t ih =>
    rw [etna_link_loop] at hrun
    by_cases hg : h.reg > 0 ∧ h.reg ≤ ETNA_NUM_INPUTS
    · rw [if_pos hg] at hrun
      by_cases hp : h.slot = VARYING_SLOT_PNTC
      · simp only [if_pos hp] at hrun
        intro v hv
        rcases List.mem_cons.mp hv with rfl | hvt
        · exact Or.inl hp
        · exact ih _ _ hrun v hvt
      · simp only [if_neg hp] at hrun
        cases hlook : etna_shader_vs_lookup vsOut h with
        | none =>
          simp only [hlook] at hrun
          simp at hrun
        | some vsio =>
          simp only [hlook] at hrun
          intro v hv
          rcases List.mem_cons.mp hv with rfl | hvt
          · refine Or.inr ?_
            rw [hlook]
            intro hx
            cases hx
          · exact ih _ _ hrun v hvt
    · rw [if_neg hg] at hrun
      cases hrun

theorem link_loop_regs_of_false (vsOut : List EtnaShaderInout) (fsLen : Nat)
    (rest : List EtnaShaderInout) (compOfs : Nat) (info : EtnaShaderLinkInfo)
    (info' : EtnaShaderLinkInfo)
    (hrun : etna_link_loop vsOut fsLen compOfs info rest = some (false, info')) :
    ∀ io ∈ rest, 0 < io.reg ∧ io.reg ≤ ETNA_NUM_INPUTS := by
  induction rest generalizing compOfs info with
  | nil => intro v hv; cases hv
  | cons h t ih =>
    rw [etna_link_loop] at hrun
    by_cases hg : h.reg > 0 ∧ h.reg ≤ ETNA_NUM_INPUTS
    · rw [if_pos hg] at hrun
      intro v hv
      rcases List.mem_cons.mp hv with rfl | hvt
      · exact hg
      · by_cases hp : v.slot = VARYING_SLOT_PNTC
        all_goals {
          by_cases hhp : h.slot = VARYING_SLOT_PNTC
          · simp only [if_pos hhp] at hrun
            exact ih _ _ hrun v hvt
          · simp only [if_neg hhp] at hrun
            cases hlook : etna_shader_vs_lookup vsOut h with
            | none => simp only [hlook] at hrun; simp at hrun
            | some vsio =>
              simp only [hlook] at hrun
              exact ih _ _ hrun v hvt
        }
    · rw [if_neg hg] at hrun
      cases hrun

theorem link_loop_pcoord_stable (vsOut : List EtnaShaderInout) (fsLen : Nat)
    (rest : List EtnaShaderInout) (compOfs : Nat) (info : EtnaShaderLinkInfo)
    (r : Bool) (info' : EtnaShaderLinkInfo)
    (hnp : ∀ io ∈ rest, io.slot ≠ VARYING_SLOT_PNTC)
    (hrun : etna_link_loop vsOut fsLen compOfs info rest = some (r, info')) :
    info'.pcoord_varying_comp_ofs = info.pcoord_varying_comp_ofs := by
  induction rest generalizing compOfs info with
  | nil =>
    rw [etna_link_loop] at hrun
    by_cases hc : info.num_varyings = fsLen
    · rw [if_pos hc] at hrun
      simp only [Option.some.injEq, Prod.mk.injEq] at hrun
      rw [← hrun.2]
    · rw [if_neg hc] at hrun
      cases hrun
  | cons h t ih =>
    have hp : h.slot ≠ VARYING_SLOT_PNTC := hnp h (List.mem_cons_self _ _)
    have hnp' : ∀ io ∈ t, io.slot ≠ VARYING_SLOT_PNTC :=
      fun io hio => hnp io (List.mem_cons_of_mem _ hio)
    rw [etna_link_loop] at hrun
    by_cases hg : h.reg > 0 ∧ h.reg ≤ ETNA_NUM_INPUTS
    · rw [if_pos hg] at hrun
      simp only [if_neg hp] at hrun
      cases hlook : etna_shader_vs_lookup vsOut h with
      | none =>
        simp only [hlook] at hrun
        simp only [Option.some.injEq, Prod.mk.injEq] at hrun
        rw [← hrun.2]
        by_cases hnv : h.reg > info.num_varyings <;> simp [hnv]
      | some vsio =>
        simp only [hlook] at hrun
        rw [ih _ _ hnp' hrun]
        by_cases hnv : h.reg > info.num_varyings <;> simp [hnv]
    · rw [if_neg hg] at hrun
      cases hrun

theorem link_loop_varying_stable (vsOut : List EtnaShaderInout) (fsLen : Nat)
    (rest : List EtnaShaderInout) (compOfs : Nat) (info : EtnaShaderLinkInfo)
    (r : Bool) (info' : EtnaShaderLinkInfo) (rg : Nat) (hrg : 0 < rg)
    (hne : ∀ io ∈ rest, io.reg ≠ rg)
    (hrun : etna_link_loop vsOut fsLen compOfs info rest = some (r, info')) :
    info'.varyings (rg - 1) = info.varyings (rg - 1) := by
  induction rest generalizing compOfs info with
  | nil =>
    rw [etna_link_loop] at hrun
    by_cases hc : info.num_varyings = fsLen
    · rw [if_pos hc] at hrun
      simp only [Option.some.injEq, Prod.mk.injEq] at hrun
      rw [← hrun.2]
    · rw [if_neg hc] at hrun
      cases hrun
  | cons h t ih =>
    have hhne : h.reg ≠ rg := hne h (List.mem_cons_self _ _)
    have hne' : ∀ io ∈ t, io.reg ≠ rg :=
      fun io hio => hne io (List.mem_cons_of_mem _ hio)
    rw [etna_link_loop] at hrun
    by_cases hg : h.reg > 0 ∧ h.reg ≤ ETNA_NUM_INPUTS
    · rw [if_pos hg] at hrun
      have hidx : rg - 1 ≠ linkVaryingIndex h := by
        rw [linkVaryingIndex]
        have := hg.1
        omega
      by_cases hp : h.slot = VARYING_SLOT_PNTC
      · simp only [if_pos hp] at hrun
        rw [ih _ _ hne' hrun]
        show Function.update _ (linkVaryingIndex h) _ (rg - 1) = _
        rw [Function.update_noteq hidx]
        by_cases hnv : h.reg > info.num_varyings <;> simp [hnv]
      · simp only [if_neg hp] at hrun
        cases hlook : etna_shader_vs_lookup vsOut h with
        | none =>
          simp only [hlook] at hrun
          simp only [Option.some.injEq, Prod.mk.injEq] at hrun
          rw [← hrun.2]
          show Function.update _ (linkVaryingIndex h) _ (rg - 1) = _
          rw [Function.update_noteq hidx]
          by_cases hnv : h.reg > info.num_varyings <;> simp [hnv]
        | some vsio =>
          simp only [hlook] at hrun
          rw [ih _ _ hne' hrun]
          show Function.update _ (linkVaryingIndex h) _ (rg - 1) = _
          rw [Function.update_noteq hidx]
          by_cases hnv : h.reg > info.num_varyings <;> simp [hnv]
    · rw [if_neg hg] at hrun
      cases hrun

theorem link_loop_pntc_entry (vsOut : List EtnaShaderInout) (fsLen : Nat)
    (rest : List EtnaShaderInout) (compOfs : Nat) (info : EtnaShaderLinkInfo)
    (k : Nat) (fsio : EtnaShaderInout) (info' : EtnaShaderLinkInfo)
    (hrun : etna_link_loop vsOut fsLen compOfs info rest = some (false, info'))
    (hk : rest[k]? = some fsio)
    (hpntc : fsio.slot = VARYING_SLOT_PNTC)
    (hlater : ∀ (j : Nat) (fs' : EtnaShaderInout), k < j → rest[j]? = some fs' →
      fs'.slot ≠ VARYING_SLOT_PNTC ∧ fs'.reg ≠ fsio.reg)
    (hbefore : ∀ (j : Nat) (fs' : EtnaShaderInout), j < k → rest[j]? = some fs' →
      fs'.reg ≠ fsio.reg) :
    (info'.varyings (linkVaryingIndex fsio)).use0 =
      VARYING_COMPONENT_USE_POINTCOORD_X ∧
    (info'.varyings (linkVaryingIndex fsio)).use1 =
      VARYING_COMPONENT_USE_POINTCOORD_Y ∧
    (info'.varyings (linkVaryingIndex fsio)).reg =
      (info.varyings (linkVaryingIndex fsio)).reg ∧
    (info'.varyings (linkVaryingIndex fsio)).num_components =
      fsio.num_components ∧
    info'.pcoord_varying_comp_ofs =
      ((compOfs + ((rest.take k).map (fun io => io.num_components)).sum : Nat) : Int) := by
  induction rest generalizing k compOfs info with
  | nil => cases hk
  | cons h t ih =>
    have hall : ∀ io ∈ h :: t, 0 < io.reg ∧ io.reg ≤ ETNA_NUM_INPUTS :=
      link_loop_regs_of_false _ _ _ _ _ _ hrun
    have hg : h.reg > 0 ∧ h.reg ≤ ETNA_NUM_INPUTS := hall h (List.mem_cons_self _ _)
    rw [etna_link_loop, if_pos hg] at hrun
    cases k with
    | zero =>
      rw [List.getElem?_cons_zero] at hk
      obtain rfl : h = fsio := Option.some.inj hk
      simp only [if_pos hpntc] at hrun
      have hnp' : ∀ io ∈ t, io.slot ≠ VARYING_SLOT_PNTC := by
        intro io hio
        obtain ⟨j, hj⟩ := List.mem_iff_getElem?.mp hio
        exact (hlater (j + 1) io (by omega) (by rw [List.getElem?_cons_succ]; exact hj)).1
      have hne' : ∀ io ∈ t, io.reg ≠ h.reg := by
        intro io hio
        obtain ⟨j, hj⟩ := List.mem_iff_getElem?.mp hio
        exact (hlater (j + 1) io (by omega) (by rw [List.getElem?_cons_succ]; exact hj)).2
      have hpc := link_loop_pcoord_stable _ _ _ _ _ _ _ hnp' hrun
      have hvar := link_loop_varying_stable _ _ _ _ _ _ _ h.reg hg.1 hne' hrun
      refine ⟨?_, ?_, ?_, ?_, ?_⟩
      · rw [linkVaryingIndex, hvar]
        simp [linkVaryingIndex, Function.update_same]
      · rw [linkVaryingIndex, hvar]
        simp [linkVaryingIndex, Function.update_same]
      · rw [linkVaryingIndex, hvar]
        simp only [linkVaryingIndex, Function.update_same]
        by_cases hnv : h.reg > info.num_varyings <;> simp [hnv]
      · rw [linkVaryingIndex, hvar]
        simp [linkVaryingIndex, Function.update_same]
      · rw [hpc]
        simp
    | succ k' =>
      rw [List.getElem?_cons_succ] at hk
      have hfs : fsio ∈ t := List.mem_iff_getElem?.mpr ⟨k', hk⟩
      have hfspos : 0 < fsio.reg := (hall fsio (List.mem_cons_of_mem _ hfs)).1
      have hhne : h.reg ≠ fsio.reg :=
        hbefore 0 h (by omega) (by rw [List.getElem?_cons_zero])
      have hidx : linkVaryingIndex fsio ≠ linkVaryingIndex h := by
        rw [linkVaryingIndex, linkVaryingIndex]
        have := hg.1
        omega
      have hlater' : ∀ (j : Nat) (fs' : EtnaShaderInout), k' < j → t[j]? = some fs' →
          fs'.slot ≠ VARYING_SLOT_PNTC ∧ fs'.reg ≠ fsio.reg := by
        intro j fs' hj hjt
        exact hlater (j + 1) fs' (by omega) (by rw [List.getElem?_cons_succ]; exact hjt)
      have hbefore' : ∀ (j : Nat) (fs' : EtnaShaderInout), j < k' → t[j]? = some fs' →
          fs'.reg ≠ fsio.reg := by
        intro j fs' hj hjt
        exact hbefore (j + 1) fs' (by omega) (by rw [List.getElem?_cons_succ]; exact hjt)
      have hsum : ∀ base : Nat,
          ((base + h.num_components + ((t.take k').map (fun io => io.num_components)).sum : Nat) : Int) =
          ((base + (((h :: t).take (k' + 1)).map (fun io => io.num_components)).sum : Nat) : Int) := by
        intro base
        rw [List.take_succ_cons, List.map_cons, List.sum_cons]
        congr 1
        omega
      by_cases hp : h.slot = VARYING_SLOT_PNTC
      · simp only [if_pos hp] at hrun
        have hres := ih _ _ _ hrun hk hlater' hbefore'
        refine ⟨hres.1, hres.2.1, ?_, hres.2.2.2.1, ?_⟩
        · rw [hres.2.2.1]
          simp only [Function.update_noteq hidx]
          by_cases hnv : h.reg > info.num_varyings <;> simp [hnv]
        · rw [hres.2.2.2.2]
          exact hsum compOfs
      · simp only [if_neg hp] at hrun
        cases hlook : etna_shader_vs_lookup vsOut h with
        | none =>
          simp only [hlook] at hrun
          simp at hrun
        | some vsio =>
          simp only [hlook] at hrun
          have hres := ih _ _ _ hrun hk hlater' hbefore'
          refine ⟨hres.1, hres.2.1, ?_, hres.2.2.2.1, ?_⟩
          · rw [hres.2.2.1]
            simp only [Function.update_noteq hidx]
            by_cases hnv : h.reg > info.num_varyings <;> simp [hnv]
          · rw [hres.2.2.2.2]
            exact hsum compOfs

/-- C6: during linking, a fragment input whose semantic slot is not the
point-coordinate slot and has no vertex output with a matching slot makes
`etna_link_shader_nir` report a link error (result `true`) without crashing
(the linker is a pure function of the two variants' read-only tables, so
neither input variant is modified); a point-coordinate input is exempt from
matching: its varying entry carries the fixed X/Y point-coordinate usage
tags, no vertex register (the field keeps its zero initialization), and
`pcoord_varying_comp_ofs` equals the sum of the component counts of all
previously processed fragment inputs. -/
theorem link_error_and_pntc_exempt (vsOut fsIn : List EtnaShaderInout) :
    ((∀ io ∈ fsIn, 0 < io.reg ∧ io.reg ≤ ETNA_NUM_INPUTS) →
      fsIn.length < ETNA_NUM_INPUTS →
      (∃ fsio ∈ fsIn, fsio.slot ≠ VARYING_SLOT_PNTC ∧
        etna_shader_vs_lookup vsOut fsio = none) →
      ∃ info, etna_link_shader_nir vsOut fsIn = some (true, info)) ∧
    (∀ (k : Nat) (fsio : EtnaShaderInout) (info' : EtnaShaderLinkInfo),
      etna_link_shader_nir vsOut fsIn = some (false, info') →
      fsIn[k]? = some fsio →
      fsio.slot = VARYING_SLOT_PNTC →
      (∀ (j : Nat) (fs' : EtnaShaderInout), k < j → fsIn[j]? = some fs' →
        fs'.slot ≠ VARYING_SLOT_PNTC ∧ fs'.reg ≠ fsio.reg) →
      (∀ (j : Nat) (fs' : EtnaShaderInout), j < k → fsIn[j]? = some fs' →
        fs'.reg ≠ fsio.reg) →
      (info'.varyings (linkVaryingIndex fsio)).use0 =
        VARYING_COMPONENT_USE_POINTCOORD_X ∧
      (info'.varyings (linkVaryingIndex fsio)).use1 =
        VARYING_COMPONENT_USE_POINTCOORD_Y ∧
      (info'.varyings (linkVaryingIndex fsio)).reg = 0 ∧
      (info'.varyings (linkVaryingIndex fsio)).num_components =
        fsio.num_components ∧
      info'.pcoord_varying_comp_ofs =
        ((((fsIn.take k).map (fun io => io.num_components)).sum : Nat) : Int)) := by
  constructor
  · intro hregs hlen hbad
    rw [etna_link_shader_nir, if_pos hlen]
    exact link_loop_true_of_bad _ _ _ _ _ hregs hbad
  · intro k fsio info' hrun hk hpntc hlater hbefore
    rw [etna_link_shader_nir] at hrun
    by_cases hlen : fsIn.length < ETNA_NUM_INPUTS
    · rw [if_pos hlen] at hrun
      have h := link_loop_pntc_entry _ _ _ _ _ _ _ _ hrun hk hpntc hlater hbefore
      refine ⟨h.1, h.2.1, ?_, h.2.2.2.1, ?_⟩
      · rw [h.2.2.1]
      · rw [h.2.2.2.2]
        simp
    · rw [if_neg hlen] at hrun
      cases hrun

/-- C6 witness: linking one unmatched non-point-coordinate input returns the
link error; linking a matched input followed by a point-coordinate input
succeeds, tags the point-coordinate entry, leaves it without a vertex
register and records offset 4 (the components of the one earlier input). -/
theorem link_error_and_pntc_exempt_witness :
    (∃ info, etna_link_shader_nir [{ reg := 3, slot := 7, num_components := 4 }]
      [{ reg := 1, slot := 9, num_components := 4 }] = some (true, info)) ∧
    (∃ info', etna_link_shader_nir [{ reg := 3, slot := 7, num_components := 4 }]
        [{ reg := 1, slot := 7, num_components := 4 },
         { reg := 2, slot := 33, num_components := 2 }] = some (false, info') ∧
      (info'.varyings 1).use0 = VARYING_COMPONENT_USE_POINTCOORD_X ∧
      (info'.varyings 1).use1 = VARYING_COMPONENT_USE_POINTCOORD_Y ∧
      (info'.varyings 1).reg = 0 ∧
      info'.pcoord_varying_comp_ofs = 4) := by
  constructor
  · refine (link_error_and_pntc_exempt _ _).1 ?_ (by decide)
      ⟨{ reg := 1, slot := 9, num_components := 4 }, by decide, by decide, by decide⟩
    intro io hio
    rcases List.mem_cons.mp hio with rfl | h0
    · exact ⟨by decide, by decide⟩
    · cases h0
  · have h := (link_error_and_pntc_exempt
      [{ reg := 3, slot := 7, num_components := 4 }]
      [{ reg := 1, slot := 7, num_components := 4 },
       { reg := 2, slot := 33, num_components := 2 }]).2 1
      { reg := 2, slot := 33, num_components := 2 } _ rfl rfl rfl
      (by
        intro j fs' hj hjf
        rw [List.getElem?_eq_none (by simp; omega)] at hjf
        cases hjf)
      (by
        intro j fs' hj hjf
        obtain rfl : j = 0 := by omega
        rw [List.getElem?_cons_zero] at hjf
        obtain rfl := Option.some.inj hjf
        decide)
    refine ⟨_, rfl, ?_, ?_, ?_, ?_⟩
    · simpa [linkVaryingIndex] using h.1
    · simpa [linkVaryingIndex] using h.2.1
    · simpa [linkVaryingIndex] using h.2.2.1
    · simpa using h.2.2.2.2

/-- C9: `etna_link_shader_nir` returns `true` exactly when linking fails —
some non-point-coordinate fragment input has no semantically matching vertex
output — and returns `false` on success; the boolean encodes failure, which
is the opposite of `etna_compile_shader_nir`'s convention, whose
fragment-stage tail returns `true` on every successful compile. -/
theorem link_bool_encodes_failure (vsOut fsIn : List EtnaShaderInout)
    (hregs : ∀ io ∈ fsIn, 0 < io.reg ∧ io.reg ≤ ETNA_NUM_INPUTS)
    (hlen : fsIn.length < ETNA_NUM_INPUTS) :
    ((∃ info, etna_link_shader_nir vsOut fsIn = some (true, info)) ↔
      ∃ fsio ∈ fsIn, fsio.slot ≠ VARYING_SLOT_PNTC ∧
        etna_shader_vs_lookup vsOut fsio = none) ∧
    (∀ info, etna_link_shader_nir vsOut fsIn = some (false, info) →
      ∀ fsio ∈ fsIn, fsio.slot = VARYING_SLOT_PNTC ∨
        etna_shader_vs_lookup vsOut fsio ≠ none) ∧
    (∀ (oreg : Nat → Nat) (outs : List NirVariable) (r : FsCompileResult),
      etna_compile_fs_outputs oreg outs = .ok r → r.returned = true) := by
  refine ⟨⟨?_, ?_⟩, ?_, ?_⟩
  · rintro ⟨info, hinfo⟩
    rw [etna_link_shader_nir, if_pos hlen] at hinfo
    exact link_loop_exists_of_true _ _ _ _ _ _ hinfo
  · intro hbad
    rw [etna_link_shader_nir, if_pos hlen]
    exact link_loop_true_of_bad _ _ _ _ _ hregs hbad
  · intro info hinfo
    rw [etna_link_shader_nir, if_pos hlen] at hinfo
    exact link_loop_matched_of_false _ _ _ _ _ _ hinfo
  · intro oreg outs r hr
    rw [etna_compile_fs_outputs] at hr
    cases hres : processFsOutputsLoop oreg {} outs with
    | error e =>
      rw [hres] at hr
      cases hr
    | ok q =>
      rw [hres] at hr
      have hr' : (if q.ps_depth_out_reg ≤ 0 then
          (Except.ok { regs := q, outfile_num_reg := 0, returned := true } :
            Except CompileErr FsCompileResult)
          else Except.error CompileErr.assertionFailed) = Except.ok r := hr
      by_cases hd : q.ps_depth_out_reg ≤ 0
      · rw [if_pos hd] at hr'
        rw [← Except.ok.inj hr']
      · rw [if_neg hd] at hr'
        cases hr'

/-- C9 witness: with no vertex outputs and no fragment inputs, linking
succeeds (never returns the failure boolean), the failure characterization
holds vacuously, and the compile-side convention conjunct is concrete. -/
theorem link_bool_encodes_failure_witness :
    ((∃ info, etna_link_shader_nir [] [] = some (true, info)) ↔
      ∃ fsio ∈ ([] : List EtnaShaderInout), fsio.slot ≠ VARYING_SLOT_PNTC ∧
        etna_shader_vs_lookup [] fsio = none) ∧
    (∀ info, etna_link_shader_nir [] [] = some (false, info) →
      ∀ fsio ∈ ([] : List EtnaShaderInout), fsio.slot = VARYING_SLOT_PNTC ∨
        etna_shader_vs_lookup [] fsio ≠ none) ∧
    (∀ (oreg : Nat → Nat) (outs : List NirVariable) (r : FsCompileResult),
      etna_compile_fs_outputs oreg outs = .ok r → r.returned = true) :=
  link_bool_encodes_failure [] [] (by simp) (by decide)

/- ALU-lowering lemmas (C7). -/

theorem lowerSinCosPremul_shape (specs : EtnaSpecs) (fresh : Nat) (d : Nat)
    (op : NirOp) (nc wm : Nat) (sat : Bool) (srcs : List LSrc) :
    ∃ pre srcs2 f1,
      lowerSinCosPremul specs fresh (LInst.alu d op nc wm sat srcs) =
        (pre, LInst.alu d op nc wm sat srcs2, f1) := by
  cases srcs with
  | nil => exact ⟨[], [], fresh, rfl⟩
  | cons s0 srest =>
    by_cases hsc : isSinCos op = true
    · refine ⟨[LInst.imm fresh (if specs.has_new_transcendentals then ImmTag.invPi
          else ImmTag.twoInvPi),
        LInst.alu (fresh + 1) .fmul 1 1 false [identSrc s0.ssa, identSrc fresh]],
        { s0 with ssa := fresh + 1 } :: srest, fresh + 2, ?_⟩
      simp [lowerSinCosPremul, hsc]
    · refine ⟨[], s0 :: srest, fresh, ?_⟩
      simp [lowerSinCosPremul, hsc]

/-- C7: on targets with the improved transcendental unit, the ALU lowering
pass rewrites a single-component divide/log2/sine/cosine op so that its
result is widened from 1 to 2 components with its saturate flag cleared, a
trailing scalar multiply is inserted immediately after it whose two sources
read the widened result — the second swizzled to component 1 — and which
carries the original op's saturate flag; all uses of the original result in
the remaining instructions are redirected to the multiply's result (the
substitution threaded into the continuation of the walk). -/
theorem lower_alu_widens_transcendentals (specs : EtnaSpecs) (σ : Nat → Nat)
    (fresh : Nat) (rest : List LInst) (d : Nat) (op : NirOp) (nc wm : Nat)
    (sat : Bool) (srcs : List LSrc) (out : List LInst)
    (hnt : specs.has_new_transcendentals = true)
    (hop : isTransOp op = true)
    (hnc : nc = 1)
    (hrun : etna_lower_alu_go specs σ fresh
      (LInst.alu d op nc wm sat srcs :: rest) = some out) :
    ∃ pre srcs2 fresh1 restOut,
      out = pre ++
        [LInst.alu d op 2 wm false srcs2,
         LInst.alu fresh1 .fmul 1 1 sat
           [identSrc d, { identSrc d with sw0 := 1 }]] ++ restOut ∧
      etna_lower_alu_go specs (fun x => if σ x = d then fresh1 else σ x)
        (fresh1 + 1) rest = some restOut := by
  subst hnc
  obtain ⟨pre, srcs2, f1, hstep⟩ :=
    lowerSinCosPremul_shape specs fresh d op 1 wm sat (srcs.map (applySubstSrc σ))
  have hwiden : lowerTransWidenStep specs f1 (LInst.alu d op 1 wm sat srcs2) =
      some ([LInst.alu d op 2 wm false srcs2,
             LInst.alu f1 .fmul 1 1 sat
               [identSrc d, { identSrc d with sw0 := 1 }]],
            some (d, f1), f1 + 1) := by
    rw [lowerTransWidenStep]
    rw [if_pos ⟨hnt, hop⟩]
    rw [if_pos rfl]
  simp only [etna_lower_alu_go, applySubstInst, hstep, hwiden] at hrun
  cases hrec : etna_lower_alu_go specs (fun x => if σ x = d then f1 else σ x)
      (f1 + 1) rest with
  | none =>
    rw [hrec] at hrun
    cases hrun
  | some o =>
    rw [hrec] at hrun
    exact ⟨pre, srcs2, f1, o, (Option.some.inj hrun).symm, hrec⟩

/-- C7 witness: a single-component divide followed by a consumer of its
result; the lowering widens the divide, inserts the trailing multiply
carrying the saturate flag, and lowers the rest under the use
substitution. -/
theorem lower_alu_widens_transcendentals_witness :
    ∃ pre srcs2 fresh1 restOut,
      [LInst.alu 7 .fdiv 2 1 false [identSrc 1, identSrc 2],
       LInst.alu 100 .fmul 1 1 true [identSrc 7, { identSrc 7 with sw0 := 1 }],
       LInst.alu 8 .mov 1 1 false [identSrc 100]] = pre ++
        [LInst.alu 7 .fdiv 2 1 false srcs2,
         LInst.alu fresh1 .fmul 1 1 true
           [identSrc 7, { identSrc 7 with sw0 := 1 }]] ++ restOut ∧
      etna_lower_alu_go { has_new_transcendentals := true }
        (fun x => if x = 7 then fresh1 else x) (fresh1 + 1)
        [LInst.alu 8 .mov 1 1 false [identSrc 7]] = some restOut :=
  lower_alu_widens_transcendentals { has_new_transcendentals := true }
    (fun x => x) 100 [LInst.alu 8 .mov 1 1 false [identSrc 7]] 7 .fdiv 1 1 true
    [identSrc 1, identSrc 2]
    [LInst.alu 7 .fdiv 2 1 false [identSrc 1, identSrc 2],
     LInst.alu 100 .fmul 1 1 true [identSrc 7, { identSrc 7 with sw0 := 1 }],
     LInst.alu 8 .mov 1 1 false [identSrc 100]]
    rfl rfl rfl (by decide)
